import Mathlib

set_option maxRecDepth 16000

/-!
Shallow embedding of the chess core in `src/catur.py`.

The board is a list of 8 rows of 8 characters, exactly as in the Python
source (uppercase = White, lowercase = Black, `'.'` = empty).  Squares are
`(rank, file)` pairs of integers, mirroring the `(r, c)` tuples of the
source.  The mutually recursive move generation / attack checking of the
source (`_moves_for_piece` → `_can_castle_kingside` → `is_king_in_check` →
`_square_attacked` → `_generate_pseudo_legal_moves` → `_moves_for_piece`) is
embedded with an explicit fuel parameter on the one back edge
(`_square_attacked` regenerating pseudo-legal moves): `squareAttackedF` is
structurally recursive on its fuel and all other operations are plain
functions parameterised by the attack oracle.
-/

namespace Catur

/-- Mirrors class `Move` of `catur.py` (fields `from_sq`, `to_sq`, `piece`,
`capture`, `promotion`, `en_passant`, `castling`). -/
structure Move where
  from_sq : Int × Int
  to_sq : Int × Int
  piece : Char
  capture : Option Char := none
  promotion : Option Char := none
  en_passant : Bool := false
  castling : Bool := false
  deriving DecidableEq, Repr

/-- The four entries of the Python dict `castling_rights`
(keys `'K'`, `'Q'`, `'k'`, `'q'`). -/
structure CastlingRights where
  wK : Bool
  wQ : Bool
  bK : Bool
  bQ : Bool
  deriving DecidableEq, Repr

/-- One element of `move_stack`: the tuple
`(move, captured, cr_snapshot, enp_snapshot, halfmove_snapshot)`
pushed by `Board.push_move`. -/
structure UndoRecord where
  move : Move
  captured : Char
  cr_snapshot : CastlingRights
  enp_snapshot : Option (Int × Int)
  halfmove_snapshot : Nat
  deriving DecidableEq, Repr

/-- Mirrors the mutable state of class `Board` in `catur.py`. -/
structure BoardState where
  board : List (List Char)
  white_to_move : Bool
  castling_rights : CastlingRights
  en_passant_target : Option (Int × Int)
  halfmove_clock : Nat
  fullmove_number : Nat
  move_stack : List UndoRecord
  deriving DecidableEq, Repr

/-- Reading `self.board[r][c]` (all reads in the source are guarded by
`in_bounds`, so the default `'.'` is never observed on source-reachable
paths). -/
def cell (b : List (List Char)) (r c : Int) : Char :=
  (b.getD r.toNat []).getD c.toNat '.'

/-- Writing `self.board[r][c] = v`. -/
def setCell (b : List (List Char)) (r c : Int) (v : Char) : List (List Char) :=
  b.set r.toNat ((b.getD r.toNat []).set c.toNat v)

/-- Mirrors `Board.in_bounds`. -/
def inB (r c : Int) : Bool :=
  decide (0 ≤ r) && decide (r < 8) && decide (0 ≤ c) && decide (c < 8)

/-- The enumeration order `for r in range(8): for c in range(8)` used by
`_generate_pseudo_legal_moves` and `is_king_in_check`. -/
def allSquares : List (Int × Int) :=
  (List.range 8).flatMap fun (r : Nat) =>
    (List.range 8).map fun (c : Nat) => ((r : Int), (c : Int))

/-- Pawn branch of `Board._moves_for_piece` (single step, double step,
promotions, diagonal captures, en passant). -/
def pawnMoves (s : BoardState) (r c : Int) (p : Char) : List Move :=
  let color_white := p.isUpper
  let dir : Int := if color_white then -1 else 1
  let start_rank : Int := if color_white then 6 else 1
  let promos : List Char := if color_white then ['Q', 'R', 'B', 'N'] else ['q', 'r', 'b', 'n']
  let single : List Move :=
    if inB (r + dir) c && (cell s.board (r + dir) c = '.') then
      (if r + dir = 0 || r + dir = 7 then
        promos.map fun q => { from_sq := (r, c), to_sq := (r + dir, c), piece := p, promotion := some q }
      else
        [{ from_sq := (r, c), to_sq := (r + dir, c), piece := p }]) ++
      (if r = start_rank && (cell s.board (r + 2 * dir) c = '.') then
        [{ from_sq := (r, c), to_sq := (r + 2 * dir, c), piece := p }]
      else [])
    else []
  let caps : List Move :=
    ([-1, 1] : List Int).flatMap fun dc =>
      let nr := r + dir
      let nc := c + dc
      if inB nr nc then
        let target := cell s.board nr nc
        if target ≠ '.' && target.isUpper ≠ color_white then
          if nr = 0 || nr = 7 then
            promos.map fun q =>
              { from_sq := (r, c), to_sq := (nr, nc), piece := p, capture := some target, promotion := some q }
          else
            [{ from_sq := (r, c), to_sq := (nr, nc), piece := p, capture := some target }]
        else []
      else []
  let enp : List Move :=
    match s.en_passant_target with
    | none => []
    | some ep_sq =>
      if (r + dir, c - 1) = ep_sq ∨ (r + dir, c + 1) = ep_sq then
        if (ep_sq.2 - c).natAbs = 1 && (ep_sq.1 = r + dir) then
          let cap_piece := cell s.board r ep_sq.2
          if cap_piece ≠ '.' && cap_piece.toUpper = 'P' && cap_piece.isUpper ≠ color_white then
            [{ from_sq := (r, c), to_sq := ep_sq, piece := p, capture := some cap_piece, en_passant := true }]
          else []
        else []
      else []
  single ++ caps ++ enp

/-- Knight branch of `Board._moves_for_piece`. -/
def knightMoves (s : BoardState) (r c : Int) (p : Char) : List Move :=
  ([(2, 1), (2, -1), (-2, 1), (-2, -1), (1, 2), (1, -2), (-1, 2), (-1, -2)] :
      List (Int × Int)).flatMap fun d =>
    let nr := r + d.1
    let nc := c + d.2
    if inB nr nc then
      let target := cell s.board nr nc
      if target = '.' then
        [{ from_sq := (r, c), to_sq := (nr, nc), piece := p }]
      else if target.isUpper ≠ p.isUpper then
        [{ from_sq := (r, c), to_sq := (nr, nc), piece := p, capture := some target }]
      else []
    else []

/-- The `while self.in_bounds(nr, nc)` ray walk of the bishop/rook/queen
branch; the board is 8 wide so 8 units of fuel are never exhausted while
the walk is still in bounds. -/
def ray (s : BoardState) (fromSq : Int × Int) (p : Char) (d : Int × Int) :
    Nat → Int → Int → List Move
  | 0, _, _ => []
  | fuel + 1, nr, nc =>
    if inB nr nc then
      let target := cell s.board nr nc
      if target = '.' then
        { from_sq := fromSq, to_sq := (nr, nc), piece := p } ::
          ray s fromSq p d fuel (nr + d.1) (nc + d.2)
      else if target.isUpper ≠ p.isUpper then
        [{ from_sq := fromSq, to_sq := (nr, nc), piece := p, capture := some target }]
      else []
    else []

/-- Bishop/rook/queen branch of `Board._moves_for_piece`. -/
def sliderMoves (s : BoardState) (r c : Int) (p : Char) : List Move :=
  let vectors : List (Int × Int) :=
    (if p.toUpper = 'B' || p.toUpper = 'Q' then
      [(-1, -1), (-1, 1), (1, -1), (1, 1)] else []) ++
    (if p.toUpper = 'R' || p.toUpper = 'Q' then
      [(-1, 0), (1, 0), (0, -1), (0, 1)] else [])
  vectors.flatMap fun d => ray s (r, c) p d 8 (r + d.1) (c + d.2)

/-- The eight single-square king steps of `Board._moves_for_piece`. -/
def kingSteps (s : BoardState) (r c : Int) (p : Char) : List Move :=
  ([(-1, -1), (-1, 0), (-1, 1), (0, -1), (0, 1), (1, -1), (1, 0), (1, 1)] :
      List (Int × Int)).flatMap fun d =>
    let nr := r + d.1
    let nc := c + d.2
    if inB nr nc then
      let target := cell s.board nr nc
      if target = '.' then
        [{ from_sq := (r, c), to_sq := (nr, nc), piece := p }]
      else if target.isUpper ≠ p.isUpper then
        [{ from_sq := (r, c), to_sq := (nr, nc), piece := p, capture := some target }]
      else []
    else []

/-- An attack oracle: the embedding of `Board._square_attacked` at some
fuel.  The returned state is the state observable after the call (the
source toggles `white_to_move` in place and restores it). -/
def AttackOracle : Type :=
  BoardState → Int × Int → Bool → Option (Bool × BoardState)

/-- Mirrors `Board.is_king_in_check` (locate the king in row-major order,
then ask `_square_attacked`). -/
def isKingInCheckC (att : AttackOracle) (s : BoardState) (white : Bool) : Option Bool :=
  let king := if white then 'K' else 'k'
  match allSquares.find? (fun sq => cell s.board sq.1 sq.2 = king) with
  | none => some false
  | some king_sq => (att s king_sq (!white)).map (fun x => x.1)

/-- Mirrors `Board._can_castle_kingside`. -/
def canCastleKingsideC (att : AttackOracle) (s : BoardState) (white : Bool) : Option Bool :=
  let r : Int := if white then 7 else 0
  let king := if white then 'K' else 'k'
  let rook := if white then 'R' else 'r'
  if cell s.board r 4 ≠ king then some false
  else if cell s.board r 7 ≠ rook then some false
  else if cell s.board r 5 ≠ '.' || cell s.board r 6 ≠ '.' then some false
  else do
    let chk ← isKingInCheckC att s white
    if chk then pure false
    else do
      let a5 ← (att s (r, 5) (!white)).map (fun x => x.1)
      if a5 then pure false
      else do
        let a6 ← (att s (r, 6) (!white)).map (fun x => x.1)
        if a6 then pure false else pure true

/-- Mirrors `Board._can_castle_queenside`. -/
def canCastleQueensideC (att : AttackOracle) (s : BoardState) (white : Bool) : Option Bool :=
  let r : Int := if white then 7 else 0
  let king := if white then 'K' else 'k'
  let rook := if white then 'R' else 'r'
  if cell s.board r 4 ≠ king then some false
  else if cell s.board r 0 ≠ rook then some false
  else if cell s.board r 1 ≠ '.' || cell s.board r 2 ≠ '.' || cell s.board r 3 ≠ '.' then some false
  else do
    let chk ← isKingInCheckC att s white
    if chk then pure false
    else do
      let a3 ← (att s (r, 3) (!white)).map (fun x => x.1)
      if a3 then pure false
      else do
        let a2 ← (att s (r, 2) (!white)).map (fun x => x.1)
        if a2 then pure false else pure true

/-- Mirrors `Board._moves_for_piece`: dispatch on the piece character. -/
def movesForPieceC (att : AttackOracle) (s : BoardState) (sq : Int × Int) (p : Char) :
    Option (List Move) :=
  let r := sq.1
  let c := sq.2
  if p.toUpper = 'P' then some (pawnMoves s r c p)
  else if p.toUpper = 'N' then some (knightMoves s r c p)
  else if p.toUpper = 'B' || p.toUpper = 'R' || p.toUpper = 'Q' then some (sliderMoves s r c p)
  else if p.toUpper = 'K' then do
    let steps := kingSteps s r c p
    if p.isUpper then do
      let cks ← if s.castling_rights.wK then canCastleKingsideC att s true else pure false
      let cqs ← if s.castling_rights.wQ then canCastleQueensideC att s true else pure false
      pure (steps ++
        (if cks then [{ from_sq := (r, c), to_sq := (r, c + 2), piece := p, castling := true }] else []) ++
        (if cqs then [{ from_sq := (r, c), to_sq := (r, c - 2), piece := p, castling := true }] else []))
    else do
      let cks ← if s.castling_rights.bK then canCastleKingsideC att s false else pure false
      let cqs ← if s.castling_rights.bQ then canCastleQueensideC att s false else pure false
      pure (steps ++
        (if cks then [{ from_sq := (r, c), to_sq := (r, c + 2), piece := p, castling := true }] else []) ++
        (if cqs then [{ from_sq := (r, c), to_sq := (r, c - 2), piece := p, castling := true }] else []))
  else some []

/-- One iteration of the `_generate_pseudo_legal_moves` scan: skip the
square when it is empty or holds a piece of the side not to move, otherwise
append that piece's moves. -/
def genStep (att : AttackOracle) (s : BoardState) (acc : Option (List Move))
    (sq : Int × Int) : Option (List Move) := do
  let ms ← acc
  let p := cell s.board sq.1 sq.2
  if p = '.' then pure ms
  else if p.isUpper ≠ s.white_to_move then pure ms
  else do
    let l ← movesForPieceC att s sq p
    pure (ms ++ l)

/-- Mirrors `Board._generate_pseudo_legal_moves`: scan the 64 squares in
row-major order, skipping empty squares and pieces of the side not to
move. -/
def genPseudoC (att : AttackOracle) (s : BoardState) : Option (List Move) :=
  allSquares.foldl (genStep att s) (some [])

/-- Mirrors `Board._square_attacked`, the one back edge of the mutual
recursion; fuel is spent exactly here.  The second component of the result
is the state observable after the call: the source saves `white_to_move`,
overwrites it with `by_white`, and restores it on both return paths. -/
def squareAttackedF : Nat → BoardState → Int × Int → Bool → Option (Bool × BoardState)
  | 0, _, _, _ => none
  | fuel + 1, s, sq, by_white =>
    let saved := s.white_to_move
    let t := { s with white_to_move := by_white }
    match genPseudoC (squareAttackedF fuel) t with
    | none => none
    | some ms =>
      match ms.find? (fun m => decide (m.to_sq = sq)) with
      | some _ => some (true, { t with white_to_move := saved })
      | none => some (false, { t with white_to_move := saved })

/-- `_generate_pseudo_legal_moves` at a given fuel. -/
def genPseudoF (fuel : Nat) (s : BoardState) : Option (List Move) :=
  genPseudoC (squareAttackedF fuel) s

/-- `_moves_for_piece` at a given fuel. -/
def movesForPieceF (fuel : Nat) (s : BoardState) (sq : Int × Int) (p : Char) :
    Option (List Move) :=
  movesForPieceC (squareAttackedF fuel) s sq p

/-- `_can_castle_kingside` at a given fuel. -/
def canCastleKingsideF (fuel : Nat) (s : BoardState) (white : Bool) : Option Bool :=
  canCastleKingsideC (squareAttackedF fuel) s white

/-- `is_king_in_check` at a given fuel. -/
def isKingInCheckF (fuel : Nat) (s : BoardState) (white : Bool) : Option Bool :=
  isKingInCheckC (squareAttackedF fuel) s white

/-- The `if piece.upper() == 'K'` castling-rights block of `Board.push_move`. -/
def updateRightsKing (piece : Char) (cr : CastlingRights) : CastlingRights :=
  if piece.toUpper = 'K' then
    if piece.isUpper then { cr with wK := false, wQ := false }
    else { cr with bK := false, bQ := false }
  else cr

/-- The `if piece.upper() == 'R'` castling-rights block of `Board.push_move`. -/
def updateRightsRookFrom (piece : Char) (from_r from_c : Int) (cr : CastlingRights) :
    CastlingRights :=
  if piece.toUpper = 'R' then
    let a := if from_r = 7 && from_c = 0 then { cr with wQ := false } else cr
    let b := if from_r = 7 && from_c = 7 then { a with wK := false } else a
    let c := if from_r = 0 && from_c = 0 then { b with bQ := false } else b
    if from_r = 0 && from_c = 7 then { c with bK := false } else c
  else cr

/-- The `if captured and captured.upper() == 'R'` castling-rights block of
`Board.push_move` (in Python the one-character string `captured` is always
truthy, so the guard reduces to the `upper()` test). -/
def updateRightsCaptured (captured : Char) (to_r to_c : Int) (cr : CastlingRights) :
    CastlingRights :=
  if captured.toUpper = 'R' then
    let a := if to_r = 7 && to_c = 0 then { cr with wQ := false } else cr
    let b := if to_r = 7 && to_c = 7 then { a with wK := false } else a
    let c := if to_r = 0 && to_c = 0 then { b with bQ := false } else b
    if to_r = 0 && to_c = 7 then { c with bK := false } else c
  else cr

/-- The piece the source's `push_move` removes from the board:
`self.board[cap_r][cap_c]` for en passant, `self.board[to_r][to_c]`
otherwise. -/
def pushCaptured (s : BoardState) (m : Move) : Char :=
  if m.en_passant then cell s.board m.from_sq.1 m.to_sq.2
  else cell s.board m.to_sq.1 m.to_sq.2

/-- The board updates of `Board.push_move`: en-passant pawn removal, the
piece move (with promotion substitution), and the castling rook hop. -/
def pushBoard (s : BoardState) (m : Move) : List (List Char) :=
  let from_r := m.from_sq.1
  let from_c := m.from_sq.2
  let to_r := m.to_sq.1
  let to_c := m.to_sq.2
  let piece := cell s.board from_r from_c
  let b0 := if m.en_passant then setCell s.board from_r to_c '.' else s.board
  let b1 := setCell b0 to_r to_c (match m.promotion with | some q => q | none => piece)
  let b2 := setCell b1 from_r from_c '.'
  if m.castling then
    if to_c = 6 then setCell (setCell b2 to_r 5 (cell b2 to_r 7)) to_r 7 '.'
    else if to_c = 2 then setCell (setCell b2 to_r 3 (cell b2 to_r 0)) to_r 0 '.'
    else b2
  else b2

/-- Mirrors `Board.push_move` field for field. -/
def pushMove (s : BoardState) (m : Move) : BoardState :=
  let from_r := m.from_sq.1
  let from_c := m.from_sq.2
  let to_r := m.to_sq.1
  let to_c := m.to_sq.2
  let piece := cell s.board from_r from_c
  let captured := pushCaptured s m
  { board := pushBoard s m
    white_to_move := !s.white_to_move
    castling_rights :=
      updateRightsCaptured captured to_r to_c
        (updateRightsRookFrom piece from_r from_c
          (updateRightsKing piece s.castling_rights))
    en_passant_target :=
      if piece.toUpper = 'P' && (to_r - from_r).natAbs = 2 then
        some ((to_r + from_r) / 2, to_c)
      else none
    halfmove_clock := if piece.toUpper = 'P' || captured ≠ '.' then 0 else s.halfmove_clock + 1
    fullmove_number := if !s.white_to_move then s.fullmove_number + 1 else s.fullmove_number
    move_stack :=
      { move := m, captured := captured, cr_snapshot := s.castling_rights,
        enp_snapshot := s.en_passant_target, halfmove_snapshot := s.halfmove_clock } ::
      s.move_stack }

/-- The board updates of `Board.pop_move`: restore the moved piece (a pawn
if the move was a promotion), restore the captured piece (on the rank-behind
square for en passant), and undo the castling rook hop. -/
def popBoard (b : List (List Char)) (m : Move) (captured : Char) : List (List Char) :=
  let from_r := m.from_sq.1
  let from_c := m.from_sq.2
  let to_r := m.to_sq.1
  let to_c := m.to_sq.2
  let piece :=
    match m.promotion with
    | some q => if q.isUpper then 'P' else 'p'
    | none => cell b to_r to_c
  let b1 := setCell b from_r from_c piece
  let b2 :=
    if m.en_passant then
      setCell (setCell b1 from_r to_c captured) to_r to_c '.'
    else
      setCell b1 to_r to_c captured
  if m.castling then
    if to_c = 6 then setCell (setCell b2 to_r 7 (cell b2 to_r 5)) to_r 5 '.'
    else if to_c = 2 then setCell (setCell b2 to_r 0 (cell b2 to_r 3)) to_r 3 '.'
    else b2
  else b2

/-- Mirrors `Board.pop_move` field for field (`if not self.move_stack:
return` is the silent no-op of the first branch). -/
def popMove (s : BoardState) : BoardState :=
  match s.move_stack with
  | [] => s
  | rec0 :: rest =>
    { board := popBoard s.board rec0.move rec0.captured
      white_to_move := !s.white_to_move
      castling_rights := rec0.cr_snapshot
      en_passant_target := rec0.enp_snapshot
      halfmove_clock := rec0.halfmove_snapshot
      fullmove_number :=
        if !(!s.white_to_move) then s.fullmove_number - 1 else s.fullmove_number
      move_stack := rest }

/-- One iteration of the `all_moves` loop: push the candidate on the
current state, test the mover's king for check, keep the candidate when the
test is negative, then pop. -/
def legalStep (fuel : Nat) (acc : Option (List Move × BoardState)) (m : Move) :
    Option (List Move × BoardState) :=
  match acc with
  | none => none
  | some (legal, cur) =>
    let s1 := pushMove cur m
    match isKingInCheckF fuel s1 (!s1.white_to_move) with
    | none => none
    | some chk =>
      some ((if chk then legal else legal ++ [m]), popMove s1)

/-- Mirrors `Board.all_moves`: generate pseudo-legal moves, then for each
one push it, keep it when the mover's king is not in check, and pop. -/
def allMovesF (fuel : Nat) (s : BoardState) : Option (List Move) :=
  match genPseudoF fuel s with
  | none => none
  | some ms =>
    (ms.foldl (legalStep fuel) (some ([], s))).map (fun x => x.1)

/-- Mirrors `Board.is_checkmate`. -/
def isCheckmateF (fuel : Nat) (s : BoardState) : Option Bool := do
  let chk ← isKingInCheckF fuel s s.white_to_move
  if !chk then pure false
  else do
    let ms ← allMovesF fuel s
    pure (decide (ms.length = 0))

/-- Mirrors `Board.is_stalemate`. -/
def isStalemateF (fuel : Nat) (s : BoardState) : Option Bool := do
  let chk ← isKingInCheckF fuel s s.white_to_move
  if chk then pure false
  else do
    let ms ← allMovesF fuel s
    pure (decide (ms.length = 0))

/-- Mirrors `Board.setup_starting_position` (and hence `Board.__init__`). -/
def startState : BoardState :=
  { board :=
      [['r', 'n', 'b', 'q', 'k', 'b', 'n', 'r'],
       ['p', 'p', 'p', 'p', 'p', 'p', 'p', 'p'],
       ['.', '.', '.', '.', '.', '.', '.', '.'],
       ['.', '.', '.', '.', '.', '.', '.', '.'],
       ['.', '.', '.', '.', '.', '.', '.', '.'],
       ['.', '.', '.', '.', '.', '.', '.', '.'],
       ['P', 'P', 'P', 'P', 'P', 'P', 'P', 'P'],
       ['R', 'N', 'B', 'Q', 'K', 'B', 'N', 'R']]
    white_to_move := true
    castling_rights := { wK := true, wQ := true, bK := true, bQ := true }
    en_passant_target := none
    halfmove_clock := 0
    fullmove_number := 1
    move_stack := [] }

/-! ## Basic facts about the board representation -/

/-- An 8×8 board: eight rows of eight cells. -/
def WfBoard (b : List (List Char)) : Prop :=
  b.length = 8 ∧ ∀ row ∈ b, row.length = 8

instance (b : List (List Char)) : Decidable (WfBoard b) := by
  unfold WfBoard; infer_instance

theorem inB_iff (r c : Int) : inB r c = true ↔ 0 ≤ r ∧ r < 8 ∧ 0 ≤ c ∧ c < 8 := by
  simp [inB, and_assoc]

theorem getD_set_self (l : List (List Char)) (i : Nat) (row : List Char) (hi : i < l.length) :
    (l.set i row).getD i [] = row := by
  rw [List.getD_eq_getElem?_getD, List.getElem?_set_self', List.getElem?_eq_getElem hi]
  rfl

theorem getD_set_ne (l : List (List Char)) (i j : Nat) (row : List Char) (hij : i ≠ j) :
    (l.set i row).getD j [] = l.getD j [] := by
  rw [List.getD_eq_getElem?_getD, List.getElem?_set_ne hij, ← List.getD_eq_getElem?_getD]

theorem getD_row_set_self (row : List Char) (j : Nat) (v : Char) (hj : j < row.length) :
    (row.set j v).getD j '.' = v := by
  rw [List.getD_eq_getElem?_getD, List.getElem?_set_self', List.getElem?_eq_getElem hj]
  rfl

theorem getD_row_set_ne (row : List Char) (i j : Nat) (v : Char) (hij : i ≠ j) :
    (row.set i v).getD j '.' = row.getD j '.' := by
  rw [List.getD_eq_getElem?_getD, List.getElem?_set_ne hij, ← List.getD_eq_getElem?_getD]

theorem getD_mem_of_lt (l : List (List Char)) (i : Nat) (hi : i < l.length) :
    l.getD i [] ∈ l := by
  rw [List.getD_eq_getElem?_getD, List.getElem?_eq_getElem hi]
  exact List.getElem_mem hi

theorem wfBoard_setCell (b : List (List Char)) (r c : Int) (v : Char) (h : WfBoard b) :
    WfBoard (setCell b r c v) := by
  obtain ⟨h1, h2⟩ := h
  rcases Nat.lt_or_ge r.toNat b.length with hlt | hge
  · refine ⟨by simp [setCell, h1], ?_⟩
    intro row hrow
    simp only [setCell] at hrow
    rcases List.mem_or_eq_of_mem_set hrow with hmem | heq
    · exact h2 row hmem
    · subst heq
      rw [List.length_set]
      exact h2 _ (getD_mem_of_lt b r.toNat hlt)
  · simp only [setCell, List.set_eq_of_length_le hge]
    exact ⟨h1, h2⟩

theorem rowlen_of_wf (b : List (List Char)) (h : WfBoard b) (i : Nat) (hi : i < 8) :
    (b.getD i []).length = 8 := by
  have hlen := h.1
  exact h.2 _ (getD_mem_of_lt b i (by omega))

theorem cell_setCell_self (b : List (List Char)) (r c : Int) (v : Char)
    (hwf : WfBoard b) (hb : inB r c = true) :
    cell (setCell b r c v) r c = v := by
  rw [inB_iff] at hb
  obtain ⟨hb1, hb2, hb3, hb4⟩ := hb
  have hlen := hwf.1
  have hr : r.toNat < b.length := by omega
  have hc : c.toNat < (b.getD r.toNat []).length := by
    rw [rowlen_of_wf b hwf r.toNat (by omega)]; omega
  unfold cell setCell
  rw [getD_set_self _ _ _ hr, getD_row_set_self _ _ _ hc]

theorem cell_setCell_ne (b : List (List Char)) (r c r2 c2 : Int) (v : Char)
    (hb : inB r c = true) (hb2 : inB r2 c2 = true) (hne : (r, c) ≠ (r2, c2)) :
    cell (setCell b r c v) r2 c2 = cell b r2 c2 := by
  rw [inB_iff] at hb hb2
  unfold cell setCell
  by_cases hrow : r.toNat = r2.toNat
  · have hr : r = r2 := by omega
    have hc : c ≠ c2 := fun h => hne (by rw [hr, h])
    have hcn : c.toNat ≠ c2.toNat := by omega
    rcases Nat.lt_or_ge r.toNat b.length with hlt | hge
    · rw [← hrow, getD_set_self _ _ _ hlt, getD_row_set_ne _ _ _ _ hcn]
    · rw [List.set_eq_of_length_le hge]
  · rw [getD_set_ne _ _ _ _ hrow]

theorem cell_eq_getElem (b : List (List Char)) (i j : Nat) (hi : i < b.length)
    (hj : j < b[i].length) : cell b (i : Int) (j : Int) = b[i][j] := by
  unfold cell
  simp only [Int.toNat_natCast]
  rw [List.getD_eq_getElem?_getD b i [], List.getElem?_eq_getElem hi]
  simp only [Option.getD_some]
  rw [List.getD_eq_getElem?_getD, List.getElem?_eq_getElem hj]
  rfl

theorem board_ext (b1 b2 : List (List Char)) (h1 : WfBoard b1) (h2 : WfBoard b2)
    (h : ∀ r c : Int, inB r c = true → cell b1 r c = cell b2 r c) : b1 = b2 := by
  obtain ⟨h1l, h1r⟩ := h1
  obtain ⟨h2l, h2r⟩ := h2
  apply List.ext_getElem (by omega)
  intro i hi1 hi2
  apply List.ext_getElem
  · have e1 := h1r _ (List.getElem_mem hi1)
    have e2 := h2r _ (List.getElem_mem hi2)
    omega
  intro j hj1 hj2
  have e1 := h1r _ (List.getElem_mem hi1)
  have hival : i < 8 := by omega
  have hjval : j < (8 : Nat) := by omega
  have hc := h (i : Int) (j : Int) (by rw [inB_iff]; refine ⟨by omega, by omega, by omega, by omega⟩)
  rw [cell_eq_getElem b1 i j hi1 hj1, cell_eq_getElem b2 i j hi2 hj2] at hc
  exact hc

theorem inB_of (r c : Int) (h1 : 0 ≤ r) (h2 : r < 8) (h3 : 0 ≤ c) (h4 : c < 8) :
    inB r c = true := by
  rw [inB_iff]; exact ⟨h1, h2, h3, h4⟩

/-! ## Monotonicity of the castling-rights updates -/

theorem updateRightsKing_le (p : Char) (cr : CastlingRights) :
    (updateRightsKing p cr).wK ≤ cr.wK ∧ (updateRightsKing p cr).wQ ≤ cr.wQ ∧
    (updateRightsKing p cr).bK ≤ cr.bK ∧ (updateRightsKing p cr).bQ ≤ cr.bQ := by
  simp only [updateRightsKing]
  split_ifs <;> simp

theorem updateRightsRookFrom_le (p : Char) (fr fc : Int) (cr : CastlingRights) :
    (updateRightsRookFrom p fr fc cr).wK ≤ cr.wK ∧
    (updateRightsRookFrom p fr fc cr).wQ ≤ cr.wQ ∧
    (updateRightsRookFrom p fr fc cr).bK ≤ cr.bK ∧
    (updateRightsRookFrom p fr fc cr).bQ ≤ cr.bQ := by
  simp only [updateRightsRookFrom]
  split_ifs <;> simp

theorem updateRightsCaptured_le (p : Char) (tr tc : Int) (cr : CastlingRights) :
    (updateRightsCaptured p tr tc cr).wK ≤ cr.wK ∧
    (updateRightsCaptured p tr tc cr).wQ ≤ cr.wQ ∧
    (updateRightsCaptured p tr tc cr).bK ≤ cr.bK ∧
    (updateRightsCaptured p tr tc cr).bQ ≤ cr.bQ := by
  simp only [updateRightsCaptured]
  split_ifs <;> simp

/-! ## Unfolding equations for the fuelled attack predicate -/

theorem squareAttackedF_zero (s : BoardState) (sq : Int × Int) (w : Bool) :
    squareAttackedF 0 s sq w = none := rfl

theorem squareAttackedF_succ (n : Nat) (s : BoardState) (sq : Int × Int) (w : Bool) :
    squareAttackedF (n + 1) s sq w =
      match genPseudoC (squareAttackedF n) { s with white_to_move := w } with
      | none => none
      | some ms =>
        match ms.find? (fun m => decide (m.to_sq = sq)) with
        | some _ => some (true, s)
        | none => some (false, s) := rfl

/-! ## Claims -/

/-- C10: each of the four castling-right flags changes monotonically across
`push_move` — a push can only lower a flag (`true` to `false`, expressed as
`≤` on `Bool`), never raise it — and the flag values before the push are
restored exactly by the matching `pop_move`, which reinstates the snapshot
taken by that push. -/
theorem claim10_rights_monotone_restored_by_pop (s : BoardState) (m : Move) :
    (pushMove s m).castling_rights.wK ≤ s.castling_rights.wK ∧
    (pushMove s m).castling_rights.wQ ≤ s.castling_rights.wQ ∧
    (pushMove s m).castling_rights.bK ≤ s.castling_rights.bK ∧
    (pushMove s m).castling_rights.bQ ≤ s.castling_rights.bQ ∧
    (popMove (pushMove s m)).castling_rights = s.castling_rights := by
  have h1 := updateRightsKing_le (cell s.board m.from_sq.1 m.from_sq.2) s.castling_rights
  have h2 := updateRightsRookFrom_le (cell s.board m.from_sq.1 m.from_sq.2)
    m.from_sq.1 m.from_sq.2 (updateRightsKing (cell s.board m.from_sq.1 m.from_sq.2) s.castling_rights)
  have h3 := updateRightsCaptured_le (pushCaptured s m) m.to_sq.1 m.to_sq.2
    (updateRightsRookFrom (cell s.board m.from_sq.1 m.from_sq.2) m.from_sq.1 m.from_sq.2
      (updateRightsKing (cell s.board m.from_sq.1 m.from_sq.2) s.castling_rights))
  refine ⟨?_, ?_, ?_, ?_, rfl⟩
  · exact le_trans h3.1 (le_trans h2.1 h1.1)
  · exact le_trans h3.2.1 (le_trans h2.2.1 h1.2.1)
  · exact le_trans h3.2.2.1 (le_trans h2.2.2.1 h1.2.2.1)
  · exact le_trans h3.2.2.2 (le_trans h2.2.2.2 h1.2.2.2)

/-- C2 (counterexample): calling pop on a state whose history stack is
empty does not fail with any error outcome — the source's
`if not self.move_stack: return` makes it return normally — and it leaves
the state unchanged, so the claimed `EmptyHistory` failure does not exist
in the code. -/
theorem claim2_counterexample :
    startState.move_stack = [] ∧ popMove startState = startState :=
  ⟨rfl, rfl⟩

/-- C2 (amended): calling pop on a BoardState whose history stack is empty
is a silent no-op: it returns normally and leaves every field of the state
unchanged. -/
theorem claim2_pop_empty_silent_noop (s : BoardState) (h : s.move_stack = []) :
    popMove s = s := by
  unfold popMove
  rw [h]

theorem claim2_witness :
    startState.move_stack = [] ∧ popMove startState = startState :=
  ⟨rfl, claim2_pop_empty_silent_noop startState rfl⟩

/-- C5: the attack predicate `_square_attacked` leaves no observable
mutation on the BoardState: whenever it returns (at any fuel, on either
the attacked or the not-attacked return path), the state it leaves behind
equals the input state — the side-to-move toggle is restored and no other
field is modified. -/
theorem claim5_attack_restores_state (n : Nat) (s : BoardState) (sq : Int × Int)
    (w b : Bool) (s2 : BoardState) (h : squareAttackedF n s sq w = some (b, s2)) :
    s2 = s := by
  cases n with
  | zero => rw [squareAttackedF_zero] at h; cases h
  | succ k =>
    rw [squareAttackedF_succ] at h
    rcases hg : genPseudoC (squareAttackedF k) { s with white_to_move := w } with _ | ms
    · simp only [hg] at h
      exact Option.noConfusion h
    · simp only [hg] at h
      rcases hf : ms.find? (fun m => decide (m.to_sq = sq)) with _ | m0 <;>
        simp only [hf, Option.some.injEq, Prod.mk.injEq] at h <;>
        exact h.2.symm

theorem claim5_witness :
    squareAttackedF 3 startState (5, 0) true = some (true, startState) ∧
    startState = startState :=
  ⟨by decide, claim5_attack_restores_state 3 startState (5, 0) true true startState (by decide)⟩

/-- The move `e2e5` (a pawn advancing three ranks): not a legal chess move,
hence absent from `all_moves` on the starting position. -/
def pawnTripleStep : Move :=
  { from_sq := (6, 4), to_sq := (3, 4), piece := 'P' }

/-- C3 (counterexample): `push_move` performs no legality validation.  On
the starting position the move `e2e5` is absent from `all_moves`, yet
pushing it succeeds and mutates the state instead of rejecting it with an
`IllegalMove` error. -/
theorem claim3_counterexample :
    (allMovesF 8 startState).map (fun l => decide (pawnTripleStep ∈ l)) = some false ∧
    pushMove startState pawnTripleStep ≠ startState := by
  exact ⟨by decide, by decide⟩

/-- C3 (amended): `push_move` applies any requested move without any
legality check — even for a move absent from `legal_moves` it flips the
side to move, appends an undo record to the history stack, and relocates
the content of the source square to the destination square, rather than
rejecting the move and leaving the state unchanged.  Callers must filter
moves through `all_moves` themselves. -/
theorem claim3_push_never_rejects (s : BoardState) (m : Move)
    (hwf : WfBoard s.board) (hpromo : m.promotion = none)
    (hf : inB m.from_sq.1 m.from_sq.2 = true) (ht : inB m.to_sq.1 m.to_sq.2 = true)
    (hne : m.from_sq ≠ m.to_sq) :
    (pushMove s m).white_to_move = !s.white_to_move ∧
    (pushMove s m).move_stack.length = s.move_stack.length + 1 ∧
    cell (pushMove s m).board m.to_sq.1 m.to_sq.2 = cell s.board m.from_sq.1 m.from_sq.2 := by
  refine ⟨rfl, rfl, ?_⟩
  show cell (pushBoard s m) m.to_sq.1 m.to_sq.2 = cell s.board m.from_sq.1 m.from_sq.2
  have hfb := (inB_iff _ _).1 hf
  have htb := (inB_iff _ _).1 ht
  unfold pushBoard
  simp only [hpromo]
  have hwf0 : WfBoard (if m.en_passant then setCell s.board m.from_sq.1 m.to_sq.2 '.' else s.board) := by
    split
    · exact wfBoard_setCell _ _ _ _ hwf
    · exact hwf
  have hwf1 : WfBoard (setCell
      (if m.en_passant then setCell s.board m.from_sq.1 m.to_sq.2 '.' else s.board)
      m.to_sq.1 m.to_sq.2 (cell s.board m.from_sq.1 m.from_sq.2)) :=
    wfBoard_setCell _ _ _ _ hwf0
  have hcell1 : cell (setCell
      (if m.en_passant then setCell s.board m.from_sq.1 m.to_sq.2 '.' else s.board)
      m.to_sq.1 m.to_sq.2 (cell s.board m.from_sq.1 m.from_sq.2)) m.to_sq.1 m.to_sq.2 =
      cell s.board m.from_sq.1 m.from_sq.2 :=
    cell_setCell_self _ _ _ _ hwf0 ht
  have hne2 : (m.from_sq.1, m.from_sq.2) ≠ (m.to_sq.1, m.to_sq.2) := hne
  have hcell2 : cell (setCell (setCell
      (if m.en_passant then setCell s.board m.from_sq.1 m.to_sq.2 '.' else s.board)
      m.to_sq.1 m.to_sq.2 (cell s.board m.from_sq.1 m.from_sq.2)) m.from_sq.1 m.from_sq.2 '.')
      m.to_sq.1 m.to_sq.2 = cell s.board m.from_sq.1 m.from_sq.2 := by
    rw [cell_setCell_ne _ _ _ _ _ _ hf ht hne2, hcell1]
  split
  · split
    · next h6 =>
      rw [cell_setCell_ne _ _ _ _ _ _ (inB_of _ _ (by omega) (by omega) (by omega) (by omega)) ht
          (by simp only [ne_eq, Prod.mk.injEq, h6]; omega),
        cell_setCell_ne _ _ _ _ _ _ (inB_of _ _ (by omega) (by omega) (by omega) (by omega)) ht
          (by simp only [ne_eq, Prod.mk.injEq, h6]; omega),
        hcell2]
    · split
      · next h2 =>
        rw [cell_setCell_ne _ _ _ _ _ _ (inB_of _ _ (by omega) (by omega) (by omega) (by omega)) ht
            (by simp only [ne_eq, Prod.mk.injEq, h2]; omega),
          cell_setCell_ne _ _ _ _ _ _ (inB_of _ _ (by omega) (by omega) (by omega) (by omega)) ht
            (by simp only [ne_eq, Prod.mk.injEq, h2]; omega),
          hcell2]
      · exact hcell2
  · exact hcell2

theorem claim3_witness :
    WfBoard startState.board ∧
    ((pushMove startState pawnTripleStep).white_to_move = !startState.white_to_move ∧
     (pushMove startState pawnTripleStep).move_stack.length =
       startState.move_stack.length + 1 ∧
     cell (pushMove startState pawnTripleStep).board 3 4 = cell startState.board 6 4) :=
  ⟨by decide,
   claim3_push_never_rejects startState pawnTripleStep (by decide) rfl (by decide) (by decide)
     (by decide)⟩

/-- C8: on the freshly constructed standard starting position, `all_moves`
returns a sequence with exactly 20 entries. -/
theorem claim8_twenty_initial_moves :
    (allMovesF 8 startState).map List.length = some 20 := by
  decide

/-- C9: whenever the computations of `all_moves`, `is_king_in_check`,
`is_checkmate` and `is_stalemate` all return (any state, any fuel),
`legal_moves` is empty if and only if checkmate or stalemate holds, and
checkmate holds if and only if `legal_moves` is empty and the side to move
is in check. -/
theorem claim9_terminal_characterisation (n : Nat) (s : BoardState) (ms : List Move)
    (chk cm st : Bool)
    (h1 : allMovesF n s = some ms)
    (h2 : isKingInCheckF n s s.white_to_move = some chk)
    (h3 : isCheckmateF n s = some cm)
    (h4 : isStalemateF n s = some st) :
    (ms = [] ↔ (cm = true ∨ st = true)) ∧ (cm = true ↔ (ms = [] ∧ chk = true)) := by
  unfold isCheckmateF at h3
  unfold isStalemateF at h4
  rw [h2] at h3 h4
  simp only [Option.pure_def, Option.bind_eq_bind, Option.some_bind] at h3 h4
  cases chk with
  | false =>
    simp only [Bool.not_false, eq_self_iff_true, Bool.false_eq_true, if_true, if_false,
      Option.some.injEq] at h3 h4
    rw [h1] at h4
    simp only [Option.some_bind, Option.some.injEq] at h4
    subst h3
    subst h4
    rcases ms with _ | ⟨m, rest⟩ <;> simp
  | true =>
    simp only [Bool.not_true, eq_self_iff_true, Bool.false_eq_true, if_true, if_false,
      Option.some.injEq] at h3 h4
    rw [h1] at h3
    simp only [Option.some_bind, Option.some.injEq] at h3
    subst h3
    subst h4
    rcases ms with _ | ⟨m, rest⟩ <;> simp

/-- Two bare kings, no castling rights: a cheap position for evaluating the
terminal predicates. -/
def bareKingsState : BoardState :=
  { board :=
      [['.', '.', '.', '.', 'k', '.', '.', '.'],
       ['.', '.', '.', '.', '.', '.', '.', '.'],
       ['.', '.', '.', '.', '.', '.', '.', '.'],
       ['.', '.', '.', '.', '.', '.', '.', '.'],
       ['.', '.', '.', '.', '.', '.', '.', '.'],
       ['.', '.', '.', '.', '.', '.', '.', '.'],
       ['.', '.', '.', '.', '.', '.', '.', '.'],
       ['.', '.', '.', '.', 'K', '.', '.', '.']]
    white_to_move := true
    castling_rights := { wK := false, wQ := false, bK := false, bQ := false }
    en_passant_target := none
    halfmove_clock := 0
    fullmove_number := 1
    move_stack := [] }

/-- The five legal king moves at `bareKingsState`. -/
def bareKingsMoves : List Move :=
  [{ from_sq := (7, 4), to_sq := (6, 3), piece := 'K' },
   { from_sq := (7, 4), to_sq := (6, 4), piece := 'K' },
   { from_sq := (7, 4), to_sq := (6, 5), piece := 'K' },
   { from_sq := (7, 4), to_sq := (7, 3), piece := 'K' },
   { from_sq := (7, 4), to_sq := (7, 5), piece := 'K' }]

theorem claim9_witness :
    (bareKingsMoves = [] ↔ (false = true ∨ false = true)) ∧
    (false = true ↔ (bareKingsMoves = [] ∧ false = true)) :=
  claim9_terminal_characterisation 4 bareKingsState bareKingsMoves false false false
    (by decide) (by decide) (by decide) (by decide)

/-- The pawn double step `e2e4`. -/
def mPe2e4 : Move := { from_sq := (6, 4), to_sq := (4, 4), piece := 'P' }

/-- The knight move `b8c6`. -/
def mNb8c6 : Move := { from_sq := (0, 1), to_sq := (2, 2), piece := 'n' }

/-- The pawn step `e4e5`. -/
def mPe4e5 : Move := { from_sq := (4, 4), to_sq := (3, 4), piece := 'P' }

/-- The pawn double step `d7d5`. -/
def mPd7d5 : Move := { from_sq := (1, 3), to_sq := (3, 3), piece := 'p' }

/-- The position after 1.e4 Nc6 2.e5 d5 (White to move, en-passant target d6). -/
def epPosition : BoardState :=
  pushMove (pushMove (pushMove (pushMove startState mPe2e4) mNb8c6) mPe4e5) mPd7d5

/-- The en-passant capture `exd6` as generated at `epPosition`. -/
def mExd6 : Move :=
  { from_sq := (3, 4), to_sq := (2, 3), piece := 'P', capture := some 'p', en_passant := true }

set_option maxHeartbeats 8000000 in
/-- C7: after 1.e4 Nc6 2.e5 d5 (each move legal at its position), the
en-passant capture exd6 is present in `all_moves`; the captured black pawn
sits on d5 = (3,3) (one rank behind the destination: the capturing pawn's
source rank, destination file) with the destination d6 = (2,3) empty, and
pushing exd6 removes the black pawn from d5 and places a white pawn on d6. -/
theorem claim7_en_passant_capture :
    (allMovesF 8 startState).map (fun l => decide (mPe2e4 ∈ l)) = some true ∧
    (allMovesF 8 (pushMove startState mPe2e4)).map (fun l => decide (mNb8c6 ∈ l)) = some true ∧
    (allMovesF 8 (pushMove (pushMove startState mPe2e4) mNb8c6)).map
      (fun l => decide (mPe4e5 ∈ l)) = some true ∧
    (allMovesF 8 (pushMove (pushMove (pushMove startState mPe2e4) mNb8c6) mPe4e5)).map
      (fun l => decide (mPd7d5 ∈ l)) = some true ∧
    (allMovesF 8 epPosition).map (fun l => decide (mExd6 ∈ l)) = some true ∧
    cell epPosition.board 3 3 = 'p' ∧
    cell epPosition.board 2 3 = '.' ∧
    mExd6.en_passant = true ∧
    mExd6.to_sq = (2, 3) ∧
    cell (pushMove epPosition mExd6).board 3 3 = '.' ∧
    cell (pushMove epPosition mExd6).board 2 3 = 'P' := by
  exact ⟨by decide, by decide, by decide, by decide, by decide, by decide, by decide, rfl, rfl,
    by decide, by decide⟩


theorem movesForPieceC_king_white (att : AttackOracle) (s : BoardState) (sq : Int × Int) :
    movesForPieceC att s sq 'K' =
      (do
        let cks ← if s.castling_rights.wK then canCastleKingsideC att s true else pure false
        let cqs ← if s.castling_rights.wQ then canCastleQueensideC att s true else pure false
        pure (kingSteps s sq.1 sq.2 'K' ++
          (if cks then
            [{ from_sq := sq, to_sq := (sq.1, sq.2 + 2), piece := 'K', castling := true }]
          else []) ++
          (if cqs then
            [{ from_sq := sq, to_sq := (sq.1, sq.2 - 2), piece := 'K', castling := true }]
          else []))) := rfl

theorem canCastleKingsideC_white (att : AttackOracle) (s : BoardState) :
    canCastleKingsideC att s true =
      (if cell s.board 7 4 ≠ 'K' then some false
      else if cell s.board 7 7 ≠ 'R' then some false
      else if cell s.board 7 5 ≠ '.' || cell s.board 7 6 ≠ '.' then some false
      else do
        let chk ← isKingInCheckC att s true
        if chk then pure false
        else do
          let a5 ← (att s (7, 5) false).map (fun x => x.1)
          if a5 then pure false
          else do
            let a6 ← (att s (7, 6) false).map (fun x => x.1)
            if a6 then pure false else pure true) := rfl

theorem kingSteps_castling_false (s : BoardState) (r c : Int) (p : Char) :
    ∀ m ∈ kingSteps s r c p, m.castling = false := by
  intro m hm
  unfold kingSteps at hm
  rw [List.mem_flatMap] at hm
  obtain ⟨d, hd, hm⟩ := hm
  dsimp only at hm
  split at hm
  · split at hm
    · rw [List.mem_singleton] at hm; subst hm; rfl
    · split at hm
      · rw [List.mem_singleton] at hm; subst hm; rfl
      · cases hm
  · cases hm


/-- The position after 1.e4 e5 2.Nf3 Nc6 3.Bc4 Bc5: White to move, all
castling rights intact, White kingside castling legal. -/
def c6Position : BoardState :=
  pushMove (pushMove (pushMove (pushMove (pushMove (pushMove startState
    { from_sq := (6, 4), to_sq := (4, 4), piece := 'P' })
    { from_sq := (1, 4), to_sq := (3, 4), piece := 'p' })
    { from_sq := (7, 6), to_sq := (5, 5), piece := 'N' })
    { from_sq := (0, 1), to_sq := (2, 2), piece := 'n' })
    { from_sq := (7, 5), to_sq := (4, 2), piece := 'B' })
    { from_sq := (0, 5), to_sq := (3, 2), piece := 'b' }

/-- The three king moves generated for White at `c6Position` (two steps and
the kingside castle). -/
def c6KingMoves : List Move :=
  [{ from_sq := (7, 4), to_sq := (6, 4), piece := 'K' },
   { from_sq := (7, 4), to_sq := (7, 5), piece := 'K' },
   { from_sq := (7, 4), to_sq := (7, 6), piece := 'K', castling := true }]

/-- The knight move `g1f3`. -/
def mNg1f3 : Move := { from_sq := (7, 6), to_sq := (5, 5), piece := 'N' }

/-- The knight move `g8f6`. -/
def mNg8f6 : Move := { from_sq := (0, 6), to_sq := (2, 5), piece := 'n' }

/-- The pawn step `e2e3`. -/
def mPe2e3 : Move := { from_sq := (6, 4), to_sq := (5, 4), piece := 'P' }

/-- The pawn step `e7e6`. -/
def mPe7e6 : Move := { from_sq := (1, 4), to_sq := (2, 4), piece := 'p' }

/-- The bishop move `f1e2`. -/
def mBf1e2 : Move := { from_sq := (7, 5), to_sq := (6, 4), piece := 'B' }

/-- The bishop move `f8e7`. -/
def mBf8e7 : Move := { from_sq := (0, 5), to_sq := (1, 4), piece := 'b' }

/-- The position after 1.Nf3 Nf6 2.e3 e6 3.Be2: Black to move; White is
structurally kingside-castle-eligible (Ke1, Rh1, f1/g1 empty, right held)
and Black becomes so too once the f8 bishop moves to e7. -/
def c4Position : BoardState :=
  pushMove (pushMove (pushMove (pushMove (pushMove startState
    mNg1f3) mNg8f6) mPe2e3) mPe7e6) mBf1e2

/-- The position after 3...Be7, in which both colours simultaneously pass
the structural kingside-castling checks. -/
def c4Stuck : BoardState := pushMove c4Position mBf8e7

/-- `c4Stuck` with the side to move overridden, as `_square_attacked` does. -/
def c4W (b : Bool) : BoardState := { c4Stuck with white_to_move := b }

/-- The 28 pseudo-legal moves of Black at `c4Position`. -/
def c4PseudoMoves : List Move :=
  [{ from_sq := (0, 1), to_sq := (2, 2), piece := 'n' },
   { from_sq := (0, 1), to_sq := (2, 0), piece := 'n' },
   { from_sq := (0, 3), to_sq := (1, 4), piece := 'q' },
   { from_sq := (0, 4), to_sq := (1, 4), piece := 'k' },
   { from_sq := (0, 5), to_sq := (1, 4), piece := 'b' },
   { from_sq := (0, 5), to_sq := (2, 3), piece := 'b' },
   { from_sq := (0, 5), to_sq := (3, 2), piece := 'b' },
   { from_sq := (0, 5), to_sq := (4, 1), piece := 'b' },
   { from_sq := (0, 5), to_sq := (5, 0), piece := 'b' },
   { from_sq := (0, 7), to_sq := (0, 6), piece := 'r' },
   { from_sq := (1, 0), to_sq := (2, 0), piece := 'p' },
   { from_sq := (1, 0), to_sq := (3, 0), piece := 'p' },
   { from_sq := (1, 1), to_sq := (2, 1), piece := 'p' },
   { from_sq := (1, 1), to_sq := (3, 1), piece := 'p' },
   { from_sq := (1, 2), to_sq := (2, 2), piece := 'p' },
   { from_sq := (1, 2), to_sq := (3, 2), piece := 'p' },
   { from_sq := (1, 3), to_sq := (2, 3), piece := 'p' },
   { from_sq := (1, 3), to_sq := (3, 3), piece := 'p' },
   { from_sq := (1, 6), to_sq := (2, 6), piece := 'p' },
   { from_sq := (1, 6), to_sq := (3, 6), piece := 'p' },
   { from_sq := (1, 7), to_sq := (2, 7), piece := 'p' },
   { from_sq := (1, 7), to_sq := (3, 7), piece := 'p' },
   { from_sq := (2, 4), to_sq := (3, 4), piece := 'p' },
   { from_sq := (2, 5), to_sq := (4, 6), piece := 'n' },
   { from_sq := (2, 5), to_sq := (4, 4), piece := 'n' },
   { from_sq := (2, 5), to_sq := (0, 6), piece := 'n' },
   { from_sq := (2, 5), to_sq := (3, 7), piece := 'n' },
   { from_sq := (2, 5), to_sq := (3, 3), piece := 'n' }]

theorem movesForPieceC_king_black (att : AttackOracle) (s : BoardState) (sq : Int × Int) :
    movesForPieceC att s sq 'k' =
      (do
        let cks ← if s.castling_rights.bK then canCastleKingsideC att s false else pure false
        let cqs ← if s.castling_rights.bQ then canCastleQueensideC att s false else pure false
        pure (kingSteps s sq.1 sq.2 'k' ++
          (if cks then
            [{ from_sq := sq, to_sq := (sq.1, sq.2 + 2), piece := 'k', castling := true }]
          else []) ++
          (if cqs then
            [{ from_sq := sq, to_sq := (sq.1, sq.2 - 2), piece := 'k', castling := true }]
          else []))) := rfl

theorem canCastleKingsideC_black (att : AttackOracle) (s : BoardState) :
    canCastleKingsideC att s false =
      (if cell s.board 0 4 ≠ 'k' then some false
      else if cell s.board 0 7 ≠ 'r' then some false
      else if cell s.board 0 5 ≠ '.' || cell s.board 0 6 ≠ '.' then some false
      else do
        let chk ← isKingInCheckC att s false
        if chk then pure false
        else do
          let a5 ← (att s (0, 5) true).map (fun x => x.1)
          if a5 then pure false
          else do
            let a6 ← (att s (0, 6) true).map (fun x => x.1)
            if a6 then pure false else pure true) := rfl


theorem genStep_none (att : AttackOracle) (s : BoardState) (sq : Int × Int) :
    genStep att s none sq = none := rfl

theorem foldl_genStep_none (att : AttackOracle) (s : BoardState) (l : List (Int × Int)) :
    l.foldl (genStep att s) none = none := by
  induction l with
  | nil => rfl
  | cons a t ih => rw [List.foldl_cons, genStep_none]; exact ih

theorem genPseudoC_none_of_bad (att : AttackOracle) (s : BoardState) (sq : Int × Int)
    (p : Char) (hsq : sq ∈ allSquares) (hp : cell s.board sq.1 sq.2 = p) (hdot : p ≠ '.')
    (hside : p.isUpper = s.white_to_move)
    (hbad : movesForPieceC att s sq p = none) :
    genPseudoC att s = none := by
  unfold genPseudoC
  have key : ∀ (l : List (Int × Int)) (init : Option (List Move)), sq ∈ l →
      l.foldl (genStep att s) init = none := by
    intro l
    induction l with
    | nil => intro init h; cases h
    | cons a t ih =>
      intro init hmem
      rw [List.foldl_cons]
      rcases List.mem_cons.1 hmem with heq | htail
      · subst heq
        have hstep : genStep att s init sq = none := by
          cases init with
          | none => rfl
          | some ms =>
            unfold genStep
            simp only [Option.pure_def, Option.bind_eq_bind, Option.some_bind]
            rw [hp]
            rw [if_neg hdot, if_neg (by simp [hside]), hbad]
            rfl
        rw [hstep]
        exact foldl_genStep_none att s t
      · exact ih _ htail
  exact key allSquares (some []) hsq

theorem c4_cycle (n : Nat) :
    (∀ b, squareAttackedF n (c4W b) (0, 4) true = none) ∧
    (∀ b, squareAttackedF n (c4W b) (7, 4) false = none) := by
  induction n with
  | zero => exact ⟨fun b => rfl, fun b => rfl⟩
  | succ k ih =>
    obtain ⟨ihA, ihB⟩ := ih
    constructor
    · intro b
      rw [squareAttackedF_succ]
      have hW : ({ c4W b with white_to_move := true } : BoardState) = c4W true := rfl
      rw [hW]
      have hgen : genPseudoC (squareAttackedF k) (c4W true) = none := by
        apply genPseudoC_none_of_bad (squareAttackedF k) (c4W true) ((7 : Int), (4 : Int)) 'K'
        · decide
        · decide
        · decide
        · decide
        · rw [movesForPieceC_king_white]
          have hck : canCastleKingsideC (squareAttackedF k) (c4W true) true = none := by
            rw [canCastleKingsideC_white]
            rw [if_neg (by decide), if_neg (by decide), if_neg (by decide)]
            have hchk : isKingInCheckC (squareAttackedF k) (c4W true) true = none := by
              have heq : isKingInCheckC (squareAttackedF k) (c4W true) true =
                  (squareAttackedF k (c4W true) ((7 : Int), (4 : Int)) false).map
                    (fun x => x.1) := rfl
              rw [heq, ihB true]
              rfl
            rw [hchk]
            rfl
          rw [if_pos (show (c4W true).castling_rights.wK = true from rfl), hck]
          rfl
      rw [hgen]
    · intro b
      rw [squareAttackedF_succ]
      have hW : ({ c4W b with white_to_move := false } : BoardState) = c4W false := rfl
      rw [hW]
      have hgen : genPseudoC (squareAttackedF k) (c4W false) = none := by
        apply genPseudoC_none_of_bad (squareAttackedF k) (c4W false) ((0 : Int), (4 : Int)) 'k'
        · decide
        · decide
        · decide
        · decide
        · rw [movesForPieceC_king_black]
          have hck : canCastleKingsideC (squareAttackedF k) (c4W false) false = none := by
            rw [canCastleKingsideC_black]
            rw [if_neg (by decide), if_neg (by decide), if_neg (by decide)]
            have hchk : isKingInCheckC (squareAttackedF k) (c4W false) false = none := by
              have heq : isKingInCheckC (squareAttackedF k) (c4W false) false =
                  (squareAttackedF k (c4W false) ((0 : Int), (4 : Int)) true).map
                    (fun x => x.1) := rfl
              rw [heq, ihA false]
              rfl
            rw [hchk]
            rfl
          rw [if_pos (show (c4W false).castling_rights.bK = true from rfl), hck]
          rfl
      rw [hgen]


theorem legalStep_none (fuel : Nat) (m : Move) : legalStep fuel none m = none := rfl

theorem foldl_legalStep_none (fuel : Nat) (l : List Move) :
    l.foldl (legalStep fuel) none = none := by
  induction l with
  | nil => rfl
  | cons a t ih => rw [List.foldl_cons, legalStep_none]; exact ih

theorem foldl_legalStep_bad (fuel : Nat) (s0 : BoardState) (x : Move)
    (hbad : isKingInCheckF fuel (pushMove s0 x) (!(pushMove s0 x).white_to_move) = none) :
    ∀ (l : List Move), x ∈ l → (∀ m ∈ l, popMove (pushMove s0 m) = s0) →
    ∀ legal : List Move, l.foldl (legalStep fuel) (some (legal, s0)) = none := by
  intro l
  induction l with
  | nil => intro h; cases h
  | cons a t ih =>
    intro hmem hpres legal
    rw [List.foldl_cons]
    rcases List.mem_cons.1 hmem with heq | htail
    · subst heq
      have hstep : legalStep fuel (some (legal, s0)) x = none := by
        unfold legalStep
        dsimp only
        rw [hbad]
      rw [hstep]
      exact foldl_legalStep_none fuel t
    · rcases hstep : legalStep fuel (some (legal, s0)) a with _ | acc2
      · exact foldl_legalStep_none fuel t
      · obtain ⟨legal2, s2⟩ := acc2
        have hsnd : s2 = s0 := by
          unfold legalStep at hstep
          dsimp only at hstep
          rcases hc : isKingInCheckF fuel (pushMove s0 a) (!(pushMove s0 a).white_to_move)
            with _ | chk <;> rw [hc] at hstep
          · cases hstep
          · injection hstep with h2
            have := congrArg Prod.snd h2
            simp only at this
            rw [← this]
            exact hpres a (List.mem_cons_self a t)
        subst hsnd
        exact ih htail (fun m hm2 => hpres m (List.mem_cons_of_mem a hm2)) legal2

set_option maxHeartbeats 1000000 in
theorem genPseudoF_c4 (n : Nat) : genPseudoF n c4Position = some c4PseudoMoves := rfl

theorem allMovesF_eq (fuel : Nat) (s : BoardState) :
    allMovesF fuel s =
      match genPseudoF fuel s with
      | none => none
      | some ms => (ms.foldl (legalStep fuel) (some ([], s))).map (fun x => x.1) := rfl

set_option maxHeartbeats 1000000 in
theorem allMovesF_c4_none (n : Nat) : allMovesF n c4Position = none := by
  rw [allMovesF_eq]
  rw [genPseudoF_c4 n]
  show (List.foldl (legalStep n) (some ([], c4Position)) c4PseudoMoves).map (fun x => x.1) = none
  have hbad : isKingInCheckF n (pushMove c4Position mBf8e7)
      (!(pushMove c4Position mBf8e7).white_to_move) = none := by
    have heq : isKingInCheckF n (pushMove c4Position mBf8e7)
        (!(pushMove c4Position mBf8e7).white_to_move) =
        (squareAttackedF n (c4W true) ((0 : Int), (4 : Int)) true).map (fun x => x.1) := rfl
    rw [heq, (c4_cycle n).1 true]
    rfl
  rw [foldl_legalStep_bad n c4Position mBf8e7 hbad c4PseudoMoves (by decide) (by decide) []]
  rfl


set_option maxHeartbeats 8000000 in
/-- C4 (refutation): after the legal sequence 1.Nf3 Nf6 2.e3 e6 3.Be2
(each move present in `all_moves` at its position), the reachable position
`c4Position` is one where Black's reply Be7 is pseudo-legal, yet
`all_moves` fails to return at every recursion depth: the mutual recursion
`_moves_for_piece` → `_can_castle_kingside` → `is_king_in_check` →
`_square_attacked` → `_generate_pseudo_legal_moves` cycles between the two
structurally castle-eligible colours, so the fuelled embedding returns
`none` for every fuel value — the source recurses without bound there. -/
theorem claim4_legal_move_computation_diverges :
    ((allMovesF 8 startState).map (fun l => decide (mNg1f3 ∈ l)) = some true) ∧
    ((allMovesF 8 (pushMove startState mNg1f3)).map (fun l => decide (mNg8f6 ∈ l)) = some true) ∧
    ((allMovesF 8 (pushMove (pushMove startState mNg1f3) mNg8f6)).map
      (fun l => decide (mPe2e3 ∈ l)) = some true) ∧
    ((allMovesF 8 (pushMove (pushMove (pushMove startState mNg1f3) mNg8f6) mPe2e3)).map
      (fun l => decide (mPe7e6 ∈ l)) = some true) ∧
    ((allMovesF 8 (pushMove (pushMove (pushMove (pushMove startState mNg1f3) mNg8f6) mPe2e3)
        mPe7e6)).map (fun l => decide (mBf1e2 ∈ l)) = some true) ∧
    (mBf8e7 ∈ c4PseudoMoves) ∧
    (∀ n : Nat, genPseudoF n c4Position = some c4PseudoMoves) ∧
    (∀ n : Nat, allMovesF n c4Position = none) :=
  ⟨by decide, by decide, by decide, by decide, by decide, by decide,
   genPseudoF_c4, allMovesF_c4_none⟩


/-- The thirteen characters a board cell can hold. -/
def validPieceChars : List Char :=
  ['.', 'P', 'N', 'B', 'R', 'Q', 'K', 'p', 'n', 'b', 'r', 'q', 'k']

/-- The board-state invariants that every position reachable by the engine
maintains: an 8×8 board of valid piece characters, at most one king per
colour, and an in-bounds empty en-passant target square whenever one is
set. -/
def WfState (s : BoardState) : Prop :=
  WfBoard s.board ∧
  (∀ sq ∈ allSquares, cell s.board sq.1 sq.2 ∈ validPieceChars) ∧
  (∀ sq1 ∈ allSquares, ∀ sq2 ∈ allSquares,
    cell s.board sq1.1 sq1.2 = 'K' → cell s.board sq2.1 sq2.2 = 'K' → sq1 = sq2) ∧
  (∀ sq1 ∈ allSquares, ∀ sq2 ∈ allSquares,
    cell s.board sq1.1 sq1.2 = 'k' → cell s.board sq2.1 sq2.2 = 'k' → sq1 = sq2) ∧
  (∀ e : Int × Int, s.en_passant_target = some e →
    inB e.1 e.2 = true ∧ cell s.board e.1 e.2 = '.')

instance (s : BoardState) : Decidable (WfState s) := by
  unfold WfState
  haveI : Decidable (∀ e : Int × Int, s.en_passant_target = some e →
      inB e.1 e.2 = true ∧ cell s.board e.1 e.2 = '.') := by
    rcases s.en_passant_target with _ | e
    · exact isTrue (by intro e h; cases h)
    · rcases inferInstanceAs
        (Decidable (inB e.1 e.2 = true ∧ cell s.board e.1 e.2 = '.')) with hno | hyes
      · exact isFalse (fun h => hno (h e rfl))
      · exact isTrue (by intro e2 h2; cases h2; exact hyes)
  exact inferInstance

/-- The structural properties shared by every pseudo-legal move generated
at a well-formed state; they are exactly what is needed for `pop_move` to
invert `push_move`. -/
def GenOK (s : BoardState) (m : Move) : Prop :=
  inB m.from_sq.1 m.from_sq.2 = true ∧
  inB m.to_sq.1 m.to_sq.2 = true ∧
  m.from_sq ≠ m.to_sq ∧
  (∀ q, m.promotion = some q →
    cell s.board m.from_sq.1 m.from_sq.2 = (if q.isUpper then 'P' else 'p')) ∧
  (m.en_passant = true → m.castling = false ∧ m.from_sq.2 ≠ m.to_sq.2 ∧
    m.from_sq.1 ≠ m.to_sq.1 ∧ cell s.board m.to_sq.1 m.to_sq.2 = '.') ∧
  (m.castling = true → m.en_passant = false ∧ m.promotion = none ∧
    m.from_sq.1 = m.to_sq.1 ∧ m.from_sq.2 = 4 ∧
    ((m.to_sq.2 = 6 ∧ cell s.board m.from_sq.1 5 = '.') ∨
     (m.to_sq.2 = 2 ∧ cell s.board m.from_sq.1 3 = '.')))

/-- Total characterisation of reading through a write. -/
theorem cell_setCell (b : List (List Char)) (r c : Int) (v : Char) (r2 c2 : Int)
    (hwf : WfBoard b) (h : inB r c = true) (h2 : inB r2 c2 = true) :
    cell (setCell b r c v) r2 c2 = if r = r2 ∧ c = c2 then v else cell b r2 c2 := by
  split_ifs with heq
  · obtain ⟨hr, hc⟩ := heq
    subst hr; subst hc
    exact cell_setCell_self b r c v hwf h
  · apply cell_setCell_ne b r c r2 c2 v h h2
    intro hcontra
    injection hcontra with hr hc
    exact heq ⟨hr, hc⟩


theorem mem_allSquares (sq : Int × Int) : sq ∈ allSquares ↔ inB sq.1 sq.2 = true := by
  obtain ⟨a, b⟩ := sq
  constructor
  · intro h
    obtain ⟨r, hr, hm⟩ := List.mem_flatMap.1 h
    obtain ⟨c, hc, hsq⟩ := List.mem_map.1 hm
    rw [List.mem_range] at hr hc
    rw [Prod.mk.injEq] at hsq
    obtain ⟨h1, h2⟩ := hsq
    subst h1
    subst h2
    dsimp only
    rw [inB_iff]
    refine ⟨by omega, by omega, by omega, by omega⟩
  · intro h
    dsimp only at h
    rw [inB_iff] at h
    apply List.mem_flatMap.2
    refine ⟨a.toNat, by rw [List.mem_range]; omega, ?_⟩
    apply List.mem_map.2
    refine ⟨b.toNat, by rw [List.mem_range]; omega, ?_⟩
    rw [Prod.mk.injEq]
    constructor
    · show ((a.toNat : Nat) : Int) = a
      omega
    · show ((b.toNat : Nat) : Int) = b
      omega

/-- Cell-level round trip for an en-passant move with abstract values. -/
theorem popPush_ep_cells (b : List (List Char)) (fr fc tr tc : Int) (X : Char)
    (hwf : WfBoard b) (hf : inB fr fc = true) (ht : inB tr tc = true)
    (hfc : fc ≠ tc) (hfr : fr ≠ tr) (hemp : cell b tr tc = '.') :
    setCell (setCell (setCell (setCell (setCell (setCell b fr tc '.') tr tc X) fr fc '.')
      fr fc (cell b fr fc)) fr tc (cell b fr tc)) tr tc '.' = b := by
  have hfb := (inB_iff _ _).1 hf
  have htb := (inB_iff _ _).1 ht
  have hcapb : inB fr tc = true := inB_of _ _ (by omega) (by omega) (by omega) (by omega)
  have w0 : WfBoard (setCell b fr tc '.') := wfBoard_setCell _ _ _ _ hwf
  have w1 := wfBoard_setCell _ tr tc X w0
  have w2 := wfBoard_setCell _ fr fc '.' w1
  have w3 := wfBoard_setCell _ fr fc (cell b fr fc) w2
  have w4 := wfBoard_setCell _ fr tc (cell b fr tc) w3
  apply board_ext _ _ (wfBoard_setCell _ tr tc '.' w4) hwf
  intro r c hin
  rw [cell_setCell _ _ _ _ _ _ w4 ht hin,
    cell_setCell _ _ _ _ _ _ w3 hcapb hin,
    cell_setCell _ _ _ _ _ _ w2 hf hin,
    cell_setCell _ _ _ _ _ _ w1 hf hin,
    cell_setCell _ _ _ _ _ _ w0 ht hin,
    cell_setCell _ _ _ _ _ _ hwf hcapb hin]
  split_ifs with h1 h2 h3 h4 h5 h6 <;>
    first
    | rfl
    | (exfalso; omega)
    | (obtain ⟨hr2, hc2⟩ := h1; rw [← hr2, ← hc2, hemp])
    | (obtain ⟨hr2, hc2⟩ := h2; rw [← hr2, ← hc2])
    | (obtain ⟨hr2, hc2⟩ := h3; rw [← hr2, ← hc2])

/-- Cell-level round trip for an ordinary (non-en-passant, non-castling)
move with abstract values. -/
theorem popPush_normal_cells (b : List (List Char)) (fr fc tr tc : Int) (X : Char)
    (hwf : WfBoard b) (hf : inB fr fc = true) (ht : inB tr tc = true)
    (hnep : ¬(fr = tr ∧ fc = tc)) :
    setCell (setCell (setCell (setCell b tr tc X) fr fc '.') fr fc (cell b fr fc))
      tr tc (cell b tr tc) = b := by
  have w0 : WfBoard (setCell b tr tc X) := wfBoard_setCell _ _ _ _ hwf
  have w1 := wfBoard_setCell _ fr fc '.' w0
  have w2 := wfBoard_setCell _ fr fc (cell b fr fc) w1
  apply board_ext _ _ (wfBoard_setCell _ tr tc (cell b tr tc) w2) hwf
  intro r c hin
  rw [cell_setCell _ _ _ _ _ _ w2 ht hin,
    cell_setCell _ _ _ _ _ _ w1 hf hin,
    cell_setCell _ _ _ _ _ _ w0 hf hin,
    cell_setCell _ _ _ _ _ _ hwf ht hin]
  split_ifs with h1 h2 h3 h4 <;>
    first
    | rfl
    | (exfalso; omega)
    | (obtain ⟨hr2, hc2⟩ := h1; rw [← hr2, ← hc2])
    | (obtain ⟨hr2, hc2⟩ := h2; rw [← hr2, ← hc2])

/-- Cell-level round trip for a kingside castle on rank `tr`. -/
theorem popPush_castleK_cells (b : List (List Char)) (tr : Int)
    (hwf : WfBoard b) (hr0 : 0 ≤ tr) (hr8 : tr < 8) (hemp5 : cell b tr 5 = '.') :
    (let b1 := setCell b tr 6 (cell b tr 4)
     let b2 := setCell b1 tr 4 '.'
     let b3 := setCell b2 tr 5 (cell b2 tr 7)
     let b4 := setCell b3 tr 7 '.'
     let p1 := setCell b4 tr 4 (cell b4 tr 6)
     let p2 := setCell p1 tr 6 (cell b tr 6)
     let p3 := setCell p2 tr 7 (cell p2 tr 5)
     setCell p3 tr 5 '.') = b := by
  dsimp only
  have hb4 : inB tr 4 = true := inB_of _ _ hr0 hr8 (by omega) (by omega)
  have hb5 : inB tr 5 = true := inB_of _ _ hr0 hr8 (by omega) (by omega)
  have hb6 : inB tr 6 = true := inB_of _ _ hr0 hr8 (by omega) (by omega)
  have hb7 : inB tr 7 = true := inB_of _ _ hr0 hr8 (by omega) (by omega)
  have w1 : WfBoard (setCell b tr 6 (cell b tr 4)) := wfBoard_setCell _ _ _ _ hwf
  have w2 := wfBoard_setCell _ tr 4 '.' w1
  have hv27 : cell (setCell (setCell b tr 6 (cell b tr 4)) tr 4 '.') tr 7 = cell b tr 7 := by
    rw [cell_setCell _ _ _ _ _ _ w1 hb4 hb7, if_neg (by omega),
      cell_setCell _ _ _ _ _ _ hwf hb6 hb7, if_neg (by omega)]
  rw [hv27]
  have w3 := wfBoard_setCell _ tr 5 (cell b tr 7) w2
  have w4 := wfBoard_setCell _ tr 7 '.' w3
  have hv46 : cell (setCell (setCell (setCell (setCell b tr 6 (cell b tr 4)) tr 4 '.')
      tr 5 (cell b tr 7)) tr 7 '.') tr 6 = cell b tr 4 := by
    rw [cell_setCell _ _ _ _ _ _ w3 hb7 hb6, if_neg (by omega),
      cell_setCell _ _ _ _ _ _ w2 hb5 hb6, if_neg (by omega),
      cell_setCell _ _ _ _ _ _ w1 hb4 hb6, if_neg (by omega),
      cell_setCell _ _ _ _ _ _ hwf hb6 hb6, if_pos ⟨rfl, rfl⟩]
  rw [hv46]
  have w5 := wfBoard_setCell _ tr 4 (cell b tr 4) w4
  have w6 := wfBoard_setCell _ tr 6 (cell b tr 6) w5
  have hv25 : cell (setCell (setCell (setCell (setCell (setCell (setCell b tr 6 (cell b tr 4))
      tr 4 '.') tr 5 (cell b tr 7)) tr 7 '.') tr 4 (cell b tr 4)) tr 6 (cell b tr 6)) tr 5 =
      cell b tr 7 := by
    rw [cell_setCell _ _ _ _ _ _ w5 hb6 hb5, if_neg (by omega),
      cell_setCell _ _ _ _ _ _ w4 hb4 hb5, if_neg (by omega),
      cell_setCell _ _ _ _ _ _ w3 hb7 hb5, if_neg (by omega),
      cell_setCell _ _ _ _ _ _ w2 hb5 hb5, if_pos ⟨rfl, rfl⟩]
  rw [hv25]
  have w7 := wfBoard_setCell _ tr 7 (cell b tr 7) w6
  apply board_ext _ _ (wfBoard_setCell _ tr 5 '.' w7) hwf
  intro r c hin
  rw [cell_setCell _ _ _ _ _ _ w7 hb5 hin,
    cell_setCell _ _ _ _ _ _ w6 hb7 hin,
    cell_setCell _ _ _ _ _ _ w5 hb6 hin,
    cell_setCell _ _ _ _ _ _ w4 hb4 hin,
    cell_setCell _ _ _ _ _ _ w3 hb7 hin,
    cell_setCell _ _ _ _ _ _ w2 hb5 hin,
    cell_setCell _ _ _ _ _ _ w1 hb4 hin,
    cell_setCell _ _ _ _ _ _ hwf hb6 hin]
  split_ifs with h1 h2 h3 h4 h5 h6 h7 h8 <;>
    first
    | rfl
    | (exfalso; omega)
    | (obtain ⟨hr2, hc2⟩ := h1; rw [← hr2, ← hc2, hemp5])
    | (obtain ⟨hr2, hc2⟩ := h2; rw [← hr2, ← hc2])
    | (obtain ⟨hr2, hc2⟩ := h3; rw [← hr2, ← hc2])
    | (obtain ⟨hr2, hc2⟩ := h4; rw [← hr2, ← hc2])

/-- Cell-level round trip for a queenside castle on rank `tr`. -/
theorem popPush_castleQ_cells (b : List (List Char)) (tr : Int)
    (hwf : WfBoard b) (hr0 : 0 ≤ tr) (hr8 : tr < 8) (hemp3 : cell b tr 3 = '.') :
    (let b1 := setCell b tr 2 (cell b tr 4)
     let b2 := setCell b1 tr 4 '.'
     let b3 := setCell b2 tr 3 (cell b2 tr 0)
     let b4 := setCell b3 tr 0 '.'
     let p1 := setCell b4 tr 4 (cell b4 tr 2)
     let p2 := setCell p1 tr 2 (cell b tr 2)
     let p3 := setCell p2 tr 0 (cell p2 tr 3)
     setCell p3 tr 3 '.') = b := by
  dsimp only
  have hb0 : inB tr 0 = true := inB_of _ _ hr0 hr8 (by omega) (by omega)
  have hb2 : inB tr 2 = true := inB_of _ _ hr0 hr8 (by omega) (by omega)
  have hb3 : inB tr 3 = true := inB_of _ _ hr0 hr8 (by omega) (by omega)
  have hb4 : inB tr 4 = true := inB_of _ _ hr0 hr8 (by omega) (by omega)
  have w1 : WfBoard (setCell b tr 2 (cell b tr 4)) := wfBoard_setCell _ _ _ _ hwf
  have w2 := wfBoard_setCell _ tr 4 '.' w1
  have hv20 : cell (setCell (setCell b tr 2 (cell b tr 4)) tr 4 '.') tr 0 = cell b tr 0 := by
    rw [cell_setCell _ _ _ _ _ _ w1 hb4 hb0, if_neg (by omega),
      cell_setCell _ _ _ _ _ _ hwf hb2 hb0, if_neg (by omega)]
  rw [hv20]
  have w3 := wfBoard_setCell _ tr 3 (cell b tr 0) w2
  have w4 := wfBoard_setCell _ tr 0 '.' w3
  have hv42 : cell (setCell (setCell (setCell (setCell b tr 2 (cell b tr 4)) tr 4 '.')
      tr 3 (cell b tr 0)) tr 0 '.') tr 2 = cell b tr 4 := by
    rw [cell_setCell _ _ _ _ _ _ w3 hb0 hb2, if_neg (by omega),
      cell_setCell _ _ _ _ _ _ w2 hb3 hb2, if_neg (by omega),
      cell_setCell _ _ _ _ _ _ w1 hb4 hb2, if_neg (by omega),
      cell_setCell _ _ _ _ _ _ hwf hb2 hb2, if_pos ⟨rfl, rfl⟩]
  rw [hv42]
  have w5 := wfBoard_setCell _ tr 4 (cell b tr 4) w4
  have w6 := wfBoard_setCell _ tr 2 (cell b tr 2) w5
  have hv23 : cell (setCell (setCell (setCell (setCell (setCell (setCell b tr 2 (cell b tr 4))
      tr 4 '.') tr 3 (cell b tr 0)) tr 0 '.') tr 4 (cell b tr 4)) tr 2 (cell b tr 2)) tr 3 =
      cell b tr 0 := by
    rw [cell_setCell _ _ _ _ _ _ w5 hb2 hb3, if_neg (by omega),
      cell_setCell _ _ _ _ _ _ w4 hb4 hb3, if_neg (by omega),
      cell_setCell _ _ _ _ _ _ w3 hb0 hb3, if_neg (by omega),
      cell_setCell _ _ _ _ _ _ w2 hb3 hb3, if_pos ⟨rfl, rfl⟩]
  rw [hv23]
  have w7 := wfBoard_setCell _ tr 0 (cell b tr 0) w6
  apply board_ext _ _ (wfBoard_setCell _ tr 3 '.' w7) hwf
  intro r c hin
  rw [cell_setCell _ _ _ _ _ _ w7 hb3 hin,
    cell_setCell _ _ _ _ _ _ w6 hb0 hin,
    cell_setCell _ _ _ _ _ _ w5 hb2 hin,
    cell_setCell _ _ _ _ _ _ w4 hb4 hin,
    cell_setCell _ _ _ _ _ _ w3 hb0 hin,
    cell_setCell _ _ _ _ _ _ w2 hb3 hin,
    cell_setCell _ _ _ _ _ _ w1 hb4 hin,
    cell_setCell _ _ _ _ _ _ hwf hb2 hin]
  split_ifs with h1 h2 h3 h4 h5 h6 h7 h8 <;>
    first
    | rfl
    | (exfalso; omega)
    | (obtain ⟨hr2, hc2⟩ := h1; rw [← hr2, ← hc2, hemp3])
    | (obtain ⟨hr2, hc2⟩ := h2; rw [← hr2, ← hc2])
    | (obtain ⟨hr2, hc2⟩ := h3; rw [← hr2, ← hc2])
    | (obtain ⟨hr2, hc2⟩ := h4; rw [← hr2, ← hc2])

theorem pushPop_board (s : BoardState) (m : Move) (hwf : WfBoard s.board)
    (hok : GenOK s m) :
    popBoard (pushBoard s m) m (pushCaptured s m) = s.board := by
  obtain ⟨hbf, hbt, hne, hpromo, hep, hcas⟩ := hok
  have hnep : ¬(m.from_sq.1 = m.to_sq.1 ∧ m.from_sq.2 = m.to_sq.2) := by
    intro hcon
    apply hne
    have e1 : m.from_sq = (m.from_sq.1, m.from_sq.2) := rfl
    have e2 : m.to_sq = (m.to_sq.1, m.to_sq.2) := rfl
    rw [e1, e2, hcon.1, hcon.2]
  cases hepv : m.en_passant with
  | true =>
    cases hcv : m.castling with
    | true => exact absurd hcv (by simp [(hep hepv).1])
    | false =>
      obtain ⟨-, hfc, hfr, hemp⟩ := hep hepv
      unfold popBoard pushBoard pushCaptured
      rcases hpv : m.promotion with _ | q <;>
        simp only [hepv, hcv, hpv, if_true, if_false, Bool.false_eq_true]
      · have w0 : WfBoard (setCell s.board m.from_sq.1 m.to_sq.2 '.') :=
          wfBoard_setCell _ _ _ _ hwf
        have w1 := wfBoard_setCell _ m.to_sq.1 m.to_sq.2
          (cell s.board m.from_sq.1 m.from_sq.2) w0
        have hpiece : cell (setCell (setCell (setCell s.board m.from_sq.1 m.to_sq.2 '.')
            m.to_sq.1 m.to_sq.2 (cell s.board m.from_sq.1 m.from_sq.2))
            m.from_sq.1 m.from_sq.2 '.') m.to_sq.1 m.to_sq.2 =
            cell s.board m.from_sq.1 m.from_sq.2 := by
          rw [cell_setCell _ _ _ _ _ _ w1 hbf hbt, if_neg (fun hcon => hfr hcon.1),
            cell_setCell _ _ _ _ _ _ w0 hbt hbt, if_pos ⟨rfl, rfl⟩]
        rw [hpiece]
        exact popPush_ep_cells s.board m.from_sq.1 m.from_sq.2 m.to_sq.1 m.to_sq.2 _
          hwf hbf hbt hfc hfr hemp
      · rw [← hpromo q hpv]
        exact popPush_ep_cells s.board m.from_sq.1 m.from_sq.2 m.to_sq.1 m.to_sq.2 q
          hwf hbf hbt hfc hfr hemp
  | false =>
    cases hcv : m.castling with
    | false =>
      unfold popBoard pushBoard pushCaptured
      rcases hpv : m.promotion with _ | q <;>
        simp only [hepv, hcv, hpv, if_true, if_false, Bool.false_eq_true]
      · have w0 : WfBoard (setCell s.board m.to_sq.1 m.to_sq.2
            (cell s.board m.from_sq.1 m.from_sq.2)) := wfBoard_setCell _ _ _ _ hwf
        have hpiece : cell (setCell (setCell s.board m.to_sq.1 m.to_sq.2
            (cell s.board m.from_sq.1 m.from_sq.2)) m.from_sq.1 m.from_sq.2 '.')
            m.to_sq.1 m.to_sq.2 = cell s.board m.from_sq.1 m.from_sq.2 := by
          rw [cell_setCell _ _ _ _ _ _ w0 hbf hbt, if_neg hnep,
            cell_setCell _ _ _ _ _ _ hwf hbt hbt, if_pos ⟨rfl, rfl⟩]
        rw [hpiece]
        exact popPush_normal_cells s.board m.from_sq.1 m.from_sq.2 m.to_sq.1 m.to_sq.2 _
          hwf hbf hbt hnep
      · rw [← hpromo q hpv]
        exact popPush_normal_cells s.board m.from_sq.1 m.from_sq.2 m.to_sq.1 m.to_sq.2 q
          hwf hbf hbt hnep
    | true =>
      obtain ⟨-, hpn, hfrtr, hfc4, hside⟩ := hcas hcv
      have htb2 := (inB_iff _ _).1 hbt
      unfold popBoard pushBoard pushCaptured
      rcases hside with ⟨htc6, hemp5⟩ | ⟨htc2, hemp3⟩
      · simp only [hepv, hcv, hpn, hfrtr, hfc4, htc6, if_true, if_false,
          Bool.false_eq_true, eq_self_iff_true]
        exact popPush_castleK_cells s.board m.to_sq.1 hwf (by omega) (by omega)
          (by rw [← hfrtr]; exact hemp5)
      · simp only [hepv, hcv, hpn, hfrtr, hfc4, htc2, if_true, if_false,
          Bool.false_eq_true, eq_self_iff_true, show ¬((2 : Int) = 6) from (by decide)]
        exact popPush_castleQ_cells s.board m.to_sq.1 hwf (by omega) (by omega)
          (by rw [← hfrtr]; exact hemp3)

/-- Full state-level round trip: for a structurally well-formed move at a
state with an 8×8 board, `pop_move` exactly inverts `push_move` in every
field. -/
theorem pushPop_id (s : BoardState) (m : Move) (hwf : WfBoard s.board)
    (hok : GenOK s m) : popMove (pushMove s m) = s := by
  have hb := pushPop_board s m hwf hok
  show ({ board := popBoard (pushBoard s m) m (pushCaptured s m)
          white_to_move := !(!s.white_to_move)
          castling_rights := s.castling_rights
          en_passant_target := s.en_passant_target
          halfmove_clock := s.halfmove_clock
          fullmove_number :=
            if !(!(!s.white_to_move)) then
              (if !s.white_to_move then s.fullmove_number + 1 else s.fullmove_number) - 1
            else
              (if !s.white_to_move then s.fullmove_number + 1 else s.fullmove_number)
          move_stack := s.move_stack } : BoardState) = s
  rw [hb]
  cases s with
  | mk board wtm cr enp half full stack =>
    cases wtm <;> simp

/-- Membership inversion for the pseudo-legal scan: every generated move
comes from `movesForPieceC` at some scanned square holding a piece of the
side to move. -/
theorem genPseudoC_mem (att : AttackOracle) (s : BoardState) (ms : List Move)
    (h : genPseudoC att s = some ms) (m : Move) (hm : m ∈ ms) :
    ∃ sq ∈ allSquares, ∃ l, cell s.board sq.1 sq.2 ≠ '.' ∧
      (cell s.board sq.1 sq.2).isUpper = s.white_to_move ∧
      movesForPieceC att s sq (cell s.board sq.1 sq.2) = some l ∧ m ∈ l := by
  unfold genPseudoC at h
  have key : ∀ (l : List (Int × Int)) (init : List Move),
      l.foldl (genStep att s) (some init) = some ms → m ∈ ms →
      m ∈ init ∨ ∃ sq ∈ l, ∃ l2, cell s.board sq.1 sq.2 ≠ '.' ∧
        (cell s.board sq.1 sq.2).isUpper = s.white_to_move ∧
        movesForPieceC att s sq (cell s.board sq.1 sq.2) = some l2 ∧ m ∈ l2 := by
    intro l
    induction l with
    | nil =>
      intro init hf hmm
      rw [List.foldl_nil] at hf
      injection hf with hf
      subst hf
      exact Or.inl hmm
    | cons a t ih =>
      intro init hf hmm
      rw [List.foldl_cons] at hf
      rcases hstep : genStep att s (some init) a with _ | init2
      · rw [hstep] at hf
        rw [foldl_genStep_none] at hf
        cases hf
      · rw [hstep] at hf
        rcases ih init2 hf hmm with hin | ⟨sq, hsq, l2, hl2⟩
        · unfold genStep at hstep
          simp only [Option.pure_def, Option.bind_eq_bind, Option.some_bind] at hstep
          by_cases hdot : cell s.board a.1 a.2 = '.'
          · rw [if_pos hdot] at hstep
            injection hstep with hstep
            subst hstep
            exact Or.inl hin
          · rw [if_neg hdot] at hstep
            by_cases hside : (cell s.board a.1 a.2).isUpper ≠ s.white_to_move
            · rw [if_pos hside] at hstep
              injection hstep with hstep
              subst hstep
              exact Or.inl hin
            · rw [if_neg hside] at hstep
              rcases hmf : movesForPieceC att s a (cell s.board a.1 a.2) with _ | l3
              · rw [hmf] at hstep
                cases hstep
              · rw [hmf] at hstep
                injection hstep with hstep
                subst hstep
                rcases List.mem_append.1 hin with h1 | h2
                · exact Or.inl h1
                · refine Or.inr ⟨a, List.mem_cons_self a t, l3, hdot, ?_, hmf, h2⟩
                  by_contra hcon
                  exact hside hcon
        · exact Or.inr ⟨sq, List.mem_cons_of_mem a hsq, l2, hl2⟩
  rcases key allSquares [] h hm with hin | ⟨sq, hsq, l2, h1, h2, h3, h4⟩
  · cases hin
  · exact ⟨sq, hsq, l2, h1, h2, h3, h4⟩

/-- A plain move (no promotion, no en passant, no castling) with in-bounds
distinct squares satisfies all structural properties. -/
theorem genOK_simple (s : BoardState) (fr fc tr tc : Int) (p : Char) (cap : Option Char)
    (hf : inB fr fc = true) (ht : inB tr tc = true) (hne : ¬(fr = tr ∧ fc = tc)) :
    GenOK s { from_sq := (fr, fc), to_sq := (tr, tc), piece := p, capture := cap } := by
  refine ⟨hf, ht, ?_, ?_, ?_, ?_⟩
  · intro hcon
    injection hcon with h1 h2
    exact hne ⟨h1, h2⟩
  · intro q hq
    cases hq
  · intro hq
    cases hq
  · intro hq
    cases hq

theorem knightMoves_sound (s : BoardState) (r c : Int) (p : Char) (hf : inB r c = true) :
    ∀ m ∈ knightMoves s r c p, GenOK s m := by
  intro m hm
  unfold knightMoves at hm
  rw [List.mem_flatMap] at hm
  obtain ⟨d, hd, hm⟩ := hm
  have hfb := (inB_iff _ _).1 hf
  have hd0 : (d.1 ≠ 0 ∨ d.2 ≠ 0) := by
    fin_cases hd <;> simp
  have hne : ¬(r = r + d.1 ∧ c = c + d.2) := by
    rcases hd0 with h | h <;> (intro hcon; omega)
  dsimp only at hm
  revert hm
  split
  · next hin =>
    split
    · intro hm
      rw [List.mem_singleton] at hm
      subst hm
      exact genOK_simple s r c (r + d.1) (c + d.2) p none hf hin hne
    · split
      · intro hm
        rw [List.mem_singleton] at hm
        subst hm
        exact genOK_simple s r c (r + d.1) (c + d.2) p _ hf hin hne
      · intro hm
        cases hm
  · intro hm
    cases hm

theorem kingSteps_sound (s : BoardState) (r c : Int) (p : Char) (hf : inB r c = true) :
    ∀ m ∈ kingSteps s r c p, GenOK s m := by
  intro m hm
  unfold kingSteps at hm
  rw [List.mem_flatMap] at hm
  obtain ⟨d, hd, hm⟩ := hm
  have hfb := (inB_iff _ _).1 hf
  have hd0 : (d.1 ≠ 0 ∨ d.2 ≠ 0) := by
    fin_cases hd <;> simp
  have hne : ¬(r = r + d.1 ∧ c = c + d.2) := by
    rcases hd0 with h | h <;> (intro hcon; omega)
  dsimp only at hm
  revert hm
  split
  · next hin =>
    split
    · intro hm
      rw [List.mem_singleton] at hm
      subst hm
      exact genOK_simple s r c (r + d.1) (c + d.2) p none hf hin hne
    · split
      · intro hm
        rw [List.mem_singleton] at hm
        subst hm
        exact genOK_simple s r c (r + d.1) (c + d.2) p _ hf hin hne
      · intro hm
        cases hm
  · intro hm
    cases hm

/-- Every move produced by the sliding-ray walk goes to an in-bounds square
distinct from the origin. -/
theorem ray_sound (s : BoardState) (r c : Int) (p : Char) (d : Int × Int)
    (hf : inB r c = true) (hd0 : d.1 ≠ 0 ∨ d.2 ≠ 0) :
    ∀ (fuel : Nat) (nr nc : Int),
      (0 < d.1 → r < nr) → (d.1 < 0 → nr < r) → (d.1 = 0 → nr = r) →
      (0 < d.2 → c < nc) → (d.2 < 0 → nc < c) → (d.2 = 0 → nc = c) →
      ∀ m ∈ ray s (r, c) p d fuel nr nc, GenOK s m := by
  intro fuel
  induction fuel with
  | zero =>
    intro nr nc h1 h2 h3 h4 h5 h6 m hm
    cases hm
  | succ k ih =>
    intro nr nc h1 h2 h3 h4 h5 h6 m hm
    have hne : ¬(r = nr ∧ c = nc) := by
      intro hcon
      rcases hd0 with h | h
      · rcases lt_trichotomy d.1 0 with hl | hl | hl
        · have := h2 hl; omega
        · exact h hl
        · have := h1 hl; omega
      · rcases lt_trichotomy d.2 0 with hl | hl | hl
        · have := h5 hl; omega
        · exact h hl
        · have := h4 hl; omega
    unfold ray at hm
    revert hm
    split
    · next hin =>
      dsimp only
      split
      · intro hm
        rcases List.mem_cons.1 hm with heq | htail
        · subst heq
          exact genOK_simple s r c nr nc p none hf hin hne
        · exact ih (nr + d.1) (nc + d.2)
            (fun hl => by have := h1 hl; omega) (fun hl => by have := h2 hl; omega)
            (fun hl => by have := h3 hl; omega) (fun hl => by have := h4 hl; omega)
            (fun hl => by have := h5 hl; omega) (fun hl => by have := h6 hl; omega)
            m htail
      · split
        · intro hm
          rw [List.mem_singleton] at hm
          subst hm
          exact genOK_simple s r c nr nc p _ hf hin hne
        · intro hm
          cases hm
    · intro hm
      cases hm

theorem sliderMoves_sound (s : BoardState) (r c : Int) (p : Char) (hf : inB r c = true) :
    ∀ m ∈ sliderMoves s r c p, GenOK s m := by
  intro m hm
  unfold sliderMoves at hm
  rw [List.mem_flatMap] at hm
  obtain ⟨d, hd, hm⟩ := hm
  rw [List.mem_append] at hd
  have hd0 : d.1 ≠ 0 ∨ d.2 ≠ 0 := by
    rcases hd with hd | hd <;> revert hd <;> split <;> intro hd
    · fin_cases hd <;> simp
    · cases hd
    · fin_cases hd <;> simp
    · cases hd
  exact ray_sound s r c p d hf hd0 8 (r + d.1) (c + d.2)
    (by omega) (by omega) (by omega) (by omega) (by omega) (by omega) m hm

theorem pawnMoves_sound (s : BoardState) (r c : Int) (p : Char)
    (hf : inB r c = true) (hp : cell s.board r c = p) (hP : p = 'P' ∨ p = 'p')
    (hepwf : ∀ e : Int × Int, s.en_passant_target = some e →
      inB e.1 e.2 = true ∧ cell s.board e.1 e.2 = '.') :
    ∀ m ∈ pawnMoves s r c p, GenOK s m := by
  have hfb := (inB_iff _ _).1 hf
  intro m hm
  unfold pawnMoves at hm
  rcases hP with hP | hP <;> subst hP <;>
    (dsimp only at hm
     simp only [show 'P'.isUpper = true from rfl, show 'p'.isUpper = false from rfl,
       if_true, if_false, eq_self_iff_true, Bool.false_eq_true] at hm
     rcases List.mem_append.1 hm with hm12 | hmE
     case _ =>
      rcases List.mem_append.1 hm12 with hmS | hmC
      case _ =>
        revert hmS
        split
        case _ hcond =>
          rw [Bool.and_eq_true] at hcond
          obtain ⟨hc1, hc2⟩ := hcond
          intro hmS
          rcases List.mem_append.1 hmS with hmS1 | hmS2
          case _ =>
            revert hmS1
            split
            case _ =>
              intro hmS1
              rw [List.mem_map] at hmS1
              obtain ⟨q, hq, hmq⟩ := hmS1
              subst hmq
              refine ⟨hf, hc1, ?_, ?_, ?_, ?_⟩
              · intro hcon
                injection hcon with hh1 hh2
                omega
              · intro q2 hq2
                injection hq2 with hq2
                subst hq2
                fin_cases hq <;> simpa using hp
              · intro hcon; cases hcon
              · intro hcon; cases hcon
            case _ =>
              intro hmS1
              rw [List.mem_singleton] at hmS1
              subst hmS1
              exact genOK_simple _ _ _ _ _ _ _ hf hc1 (by intro hcon; omega)
          case _ =>
            revert hmS2
            split
            case _ hcond2 =>
              rw [Bool.and_eq_true, decide_eq_true_eq] at hcond2
              intro hmS2
              rw [List.mem_singleton] at hmS2
              subst hmS2
              refine genOK_simple _ _ _ _ _ _ _ hf
                (inB_of _ _ (by omega) (by omega) (by omega) (by omega))
                (by intro hcon; omega)
            case _ =>
              intro hmS2
              cases hmS2
        case _ =>
          intro hmS
          cases hmS
      case _ =>
        rw [List.mem_flatMap] at hmC
        obtain ⟨dc, hdc, hmC⟩ := hmC
        have hdcv : dc = -1 ∨ dc = 1 := by
          rcases List.mem_cons.1 hdc with h | h
          · exact Or.inl h
          · rcases List.mem_cons.1 h with h2 | h2
            · exact Or.inr h2
            · cases h2
        revert hmC
        split
        case _ hin =>
          split
          case _ =>
            split
            case _ =>
              intro hmC
              rw [List.mem_map] at hmC
              obtain ⟨q, hq, hmq⟩ := hmC
              subst hmq
              refine ⟨hf, hin, ?_, ?_, ?_, ?_⟩
              · intro hcon
                injection hcon with hh1 hh2
                omega
              · intro q2 hq2
                injection hq2 with hq2
                subst hq2
                fin_cases hq <;> simpa using hp
              · intro hcon; cases hcon
              · intro hcon; cases hcon
            case _ =>
              intro hmC
              rw [List.mem_singleton] at hmC
              subst hmC
              exact genOK_simple _ _ _ _ _ _ _ hf hin (by intro hcon; omega)
          case _ =>
            intro hmC
            cases hmC
        case _ =>
          intro hmC
          cases hmC
     case _ =>
      rcases henp : s.en_passant_target with _ | ep_sq <;> simp only [henp] at hmE
      case _ => cases hmE
      case _ =>
        obtain ⟨hepb, hepc⟩ := hepwf ep_sq henp
        have hepbb := (inB_iff _ _).1 hepb
        revert hmE
        split
        case _ =>
          split
          case _ hcond2 =>
            rw [Bool.and_eq_true, decide_eq_true_eq, decide_eq_true_eq] at hcond2
            obtain ⟨habs, hrow⟩ := hcond2
            split
            case _ =>
              intro hmE
              rw [List.mem_singleton] at hmE
              subst hmE
              refine ⟨hf, hepb, ?_, ?_, ?_, ?_⟩
              · intro hcon
                have h1 := congrArg Prod.fst hcon
                dsimp only at h1
                omega
              · intro q2 hq2
                cases hq2
              · intro hcon
                refine ⟨rfl, ?_, ?_, hepc⟩
                · show c ≠ ep_sq.2
                  omega
                · show r ≠ ep_sq.1
                  omega
              · intro hcon
                cases hcon
            case _ =>
              intro hmE
              cases hmE
          case _ =>
            intro hmE
            cases hmE
        case _ =>
          intro hmE
          cases hmE)

theorem canCastleQueensideC_white (att : AttackOracle) (s : BoardState) :
    canCastleQueensideC att s true =
      (if cell s.board 7 4 ≠ 'K' then some false
      else if cell s.board 7 0 ≠ 'R' then some false
      else if cell s.board 7 1 ≠ '.' || cell s.board 7 2 ≠ '.' || cell s.board 7 3 ≠ '.' then
        some false
      else do
        let chk ← isKingInCheckC att s true
        if chk then pure false
        else do
          let a3 ← (att s (7, 3) false).map (fun x => x.1)
          if a3 then pure false
          else do
            let a2 ← (att s (7, 2) false).map (fun x => x.1)
            if a2 then pure false else pure true) := rfl

theorem canCastleQueensideC_black (att : AttackOracle) (s : BoardState) :
    canCastleQueensideC att s false =
      (if cell s.board 0 4 ≠ 'k' then some false
      else if cell s.board 0 0 ≠ 'r' then some false
      else if cell s.board 0 1 ≠ '.' || cell s.board 0 2 ≠ '.' || cell s.board 0 3 ≠ '.' then
        some false
      else do
        let chk ← isKingInCheckC att s false
        if chk then pure false
        else do
          let a3 ← (att s (0, 3) true).map (fun x => x.1)
          if a3 then pure false
          else do
            let a2 ← (att s (0, 2) true).map (fun x => x.1)
            if a2 then pure false else pure true) := rfl

theorem canCastleKingsideC_white_struct (att : AttackOracle) (s : BoardState)
    (h : canCastleKingsideC att s true = some true) :
    cell s.board 7 4 = 'K' ∧ cell s.board 7 7 = 'R' ∧
    cell s.board 7 5 = '.' ∧ cell s.board 7 6 = '.' := by
  rw [canCastleKingsideC_white] at h
  split_ifs at h with h1 h2 h3
  · simp at h
  · simp at h
  · simp at h
  · simp only [Bool.or_eq_true, decide_eq_true_eq, not_or, not_not] at h3
    exact ⟨not_not.1 h1, not_not.1 h2, h3.1, h3.2⟩

theorem canCastleKingsideC_black_struct (att : AttackOracle) (s : BoardState)
    (h : canCastleKingsideC att s false = some true) :
    cell s.board 0 4 = 'k' ∧ cell s.board 0 7 = 'r' ∧
    cell s.board 0 5 = '.' ∧ cell s.board 0 6 = '.' := by
  rw [canCastleKingsideC_black] at h
  split_ifs at h with h1 h2 h3
  · simp at h
  · simp at h
  · simp at h
  · simp only [Bool.or_eq_true, decide_eq_true_eq, not_or, not_not] at h3
    exact ⟨not_not.1 h1, not_not.1 h2, h3.1, h3.2⟩

theorem canCastleQueensideC_white_struct (att : AttackOracle) (s : BoardState)
    (h : canCastleQueensideC att s true = some true) :
    cell s.board 7 4 = 'K' ∧ cell s.board 7 0 = 'R' ∧
    cell s.board 7 1 = '.' ∧ cell s.board 7 2 = '.' ∧ cell s.board 7 3 = '.' := by
  rw [canCastleQueensideC_white] at h
  split_ifs at h with h1 h2 h3
  · simp at h
  · simp at h
  · simp at h
  · simp only [Bool.or_eq_true, decide_eq_true_eq, not_or, not_not] at h3
    exact ⟨not_not.1 h1, not_not.1 h2, h3.1.1, h3.1.2, h3.2⟩

theorem canCastleQueensideC_black_struct (att : AttackOracle) (s : BoardState)
    (h : canCastleQueensideC att s false = some true) :
    cell s.board 0 4 = 'k' ∧ cell s.board 0 0 = 'r' ∧
    cell s.board 0 1 = '.' ∧ cell s.board 0 2 = '.' ∧ cell s.board 0 3 = '.' := by
  rw [canCastleQueensideC_black] at h
  split_ifs at h with h1 h2 h3
  · simp at h
  · simp at h
  · simp at h
  · simp only [Bool.or_eq_true, decide_eq_true_eq, not_or, not_not] at h3
    exact ⟨not_not.1 h1, not_not.1 h2, h3.1.1, h3.1.2, h3.2⟩

theorem king_assemble_mem (steps : List Move) (cks cqs : Bool) (kmv qmv m : Move)
    (hm : m ∈ steps ++ (if cks then [kmv] else []) ++ (if cqs then [qmv] else [])) :
    m ∈ steps ∨ (cks = true ∧ m = kmv) ∨ (cqs = true ∧ m = qmv) := by
  rcases List.mem_append.1 hm with h1 | h2
  · rcases List.mem_append.1 h1 with h3 | h4
    · exact Or.inl h3
    · revert h4
      split
      · next hc => intro h4; exact Or.inr (Or.inl ⟨hc, List.mem_singleton.1 h4⟩)
      · intro h4; cases h4
  · revert h2
    split
    · next hc => intro h2; exact Or.inr (Or.inr ⟨hc, List.mem_singleton.1 h2⟩)
    · intro h2; cases h2

theorem movesForPieceC_king_mem_white (att : AttackOracle) (s : BoardState) (sq : Int × Int)
    (l : List Move) (m : Move) (h : movesForPieceC att s sq 'K' = some l) (hm : m ∈ l) :
    m ∈ kingSteps s sq.1 sq.2 'K' ∨
    (canCastleKingsideC att s true = some true ∧
      m = { from_sq := sq, to_sq := (sq.1, sq.2 + 2), piece := 'K', castling := true }) ∨
    (canCastleQueensideC att s true = some true ∧
      m = { from_sq := sq, to_sq := (sq.1, sq.2 - 2), piece := 'K', castling := true }) := by
  rw [movesForPieceC_king_white] at h
  cases hwK : s.castling_rights.wK with
  | true =>
    rw [if_pos hwK] at h
    rcases hck : canCastleKingsideC att s true with _ | cks
    · rw [hck] at h; simp at h
    · rw [hck] at h
      simp only [Option.pure_def, Option.bind_eq_bind, Option.some_bind] at h
      cases hwQ : s.castling_rights.wQ with
      | true =>
        rw [if_pos hwQ] at h
        rcases hcq : canCastleQueensideC att s true with _ | cqs
        · rw [hcq] at h; simp at h
        · rw [hcq] at h
          simp only [Option.some_bind, Option.some.injEq] at h
          subst h
          rcases king_assemble_mem (kingSteps s sq.1 sq.2 'K') cks cqs
              { from_sq := sq, to_sq := (sq.1, sq.2 + 2), piece := 'K', castling := true }
              { from_sq := sq, to_sq := (sq.1, sq.2 - 2), piece := 'K', castling := true } m hm
            with h1 | ⟨hc, rfl⟩ | ⟨hc, rfl⟩
          · exact Or.inl h1
          · exact Or.inr (Or.inl ⟨by rw [hc], rfl⟩)
          · exact Or.inr (Or.inr ⟨by rw [hc], rfl⟩)
      | false =>
        simp only [hwQ, Bool.false_eq_true, if_false, Option.pure_def, Option.bind_eq_bind,
          Option.some_bind, Option.some.injEq] at h
        subst h
        rcases king_assemble_mem (kingSteps s sq.1 sq.2 'K') cks false
            { from_sq := sq, to_sq := (sq.1, sq.2 + 2), piece := 'K', castling := true }
            { from_sq := sq, to_sq := (sq.1, sq.2 - 2), piece := 'K', castling := true } m hm
          with h1 | ⟨hc, rfl⟩ | ⟨hc, rfl⟩
        · exact Or.inl h1
        · exact Or.inr (Or.inl ⟨by rw [hc], rfl⟩)
        · exact absurd hc (by decide)
  | false =>
    simp only [hwK, Bool.false_eq_true, if_false, Option.pure_def, Option.bind_eq_bind,
      Option.some_bind] at h
    cases hwQ : s.castling_rights.wQ with
    | true =>
      rw [if_pos hwQ] at h
      rcases hcq : canCastleQueensideC att s true with _ | cqs
      · rw [hcq] at h; simp at h
      · rw [hcq] at h
        simp only [Option.some_bind, Option.some.injEq] at h
        subst h
        rcases king_assemble_mem (kingSteps s sq.1 sq.2 'K') false cqs
            { from_sq := sq, to_sq := (sq.1, sq.2 + 2), piece := 'K', castling := true }
            { from_sq := sq, to_sq := (sq.1, sq.2 - 2), piece := 'K', castling := true } m hm
          with h1 | ⟨hc, rfl⟩ | ⟨hc, rfl⟩
        · exact Or.inl h1
        · exact absurd hc (by decide)
        · exact Or.inr (Or.inr ⟨by rw [hc], rfl⟩)
    | false =>
      simp only [hwQ, Bool.false_eq_true, if_false, Option.some_bind, Option.some.injEq] at h
      subst h
      rcases king_assemble_mem (kingSteps s sq.1 sq.2 'K') false false
          { from_sq := sq, to_sq := (sq.1, sq.2 + 2), piece := 'K', castling := true }
          { from_sq := sq, to_sq := (sq.1, sq.2 - 2), piece := 'K', castling := true } m hm
        with h1 | ⟨hc, rfl⟩ | ⟨hc, rfl⟩
      · exact Or.inl h1
      · exact absurd hc (by decide)
      · exact absurd hc (by decide)

theorem movesForPieceC_king_mem_black (att : AttackOracle) (s : BoardState) (sq : Int × Int)
    (l : List Move) (m : Move) (h : movesForPieceC att s sq 'k' = some l) (hm : m ∈ l) :
    m ∈ kingSteps s sq.1 sq.2 'k' ∨
    (canCastleKingsideC att s false = some true ∧
      m = { from_sq := sq, to_sq := (sq.1, sq.2 + 2), piece := 'k', castling := true }) ∨
    (canCastleQueensideC att s false = some true ∧
      m = { from_sq := sq, to_sq := (sq.1, sq.2 - 2), piece := 'k', castling := true }) := by
  rw [movesForPieceC_king_black] at h
  cases hwK : s.castling_rights.bK with
  | true =>
    rw [if_pos hwK] at h
    rcases hck : canCastleKingsideC att s false with _ | cks
    · rw [hck] at h; simp at h
    · rw [hck] at h
      simp only [Option.pure_def, Option.bind_eq_bind, Option.some_bind] at h
      cases hwQ : s.castling_rights.bQ with
      | true =>
        rw [if_pos hwQ] at h
        rcases hcq : canCastleQueensideC att s false with _ | cqs
        · rw [hcq] at h; simp at h
        · rw [hcq] at h
          simp only [Option.some_bind, Option.some.injEq] at h
          subst h
          rcases king_assemble_mem (kingSteps s sq.1 sq.2 'k') cks cqs
              { from_sq := sq, to_sq := (sq.1, sq.2 + 2), piece := 'k', castling := true }
              { from_sq := sq, to_sq := (sq.1, sq.2 - 2), piece := 'k', castling := true } m hm
            with h1 | ⟨hc, rfl⟩ | ⟨hc, rfl⟩
          · exact Or.inl h1
          · exact Or.inr (Or.inl ⟨by rw [hc], rfl⟩)
          · exact Or.inr (Or.inr ⟨by rw [hc], rfl⟩)
      | false =>
        simp only [hwQ, Bool.false_eq_true, if_false, Option.pure_def, Option.bind_eq_bind,
          Option.some_bind, Option.some.injEq] at h
        subst h
        rcases king_assemble_mem (kingSteps s sq.1 sq.2 'k') cks false
            { from_sq := sq, to_sq := (sq.1, sq.2 + 2), piece := 'k', castling := true }
            { from_sq := sq, to_sq := (sq.1, sq.2 - 2), piece := 'k', castling := true } m hm
          with h1 | ⟨hc, rfl⟩ | ⟨hc, rfl⟩
        · exact Or.inl h1
        · exact Or.inr (Or.inl ⟨by rw [hc], rfl⟩)
        · exact absurd hc (by decide)
  | false =>
    simp only [hwK, Bool.false_eq_true, if_false, Option.pure_def, Option.bind_eq_bind,
      Option.some_bind] at h
    cases hwQ : s.castling_rights.bQ with
    | true =>
      rw [if_pos hwQ] at h
      rcases hcq : canCastleQueensideC att s false with _ | cqs
      · rw [hcq] at h; simp at h
      · rw [hcq] at h
        simp only [Option.some_bind, Option.some.injEq] at h
        subst h
        rcases king_assemble_mem (kingSteps s sq.1 sq.2 'k') false cqs
            { from_sq := sq, to_sq := (sq.1, sq.2 + 2), piece := 'k', castling := true }
            { from_sq := sq, to_sq := (sq.1, sq.2 - 2), piece := 'k', castling := true } m hm
          with h1 | ⟨hc, rfl⟩ | ⟨hc, rfl⟩
        · exact Or.inl h1
        · exact absurd hc (by decide)
        · exact Or.inr (Or.inr ⟨by rw [hc], rfl⟩)
    | false =>
      simp only [hwQ, Bool.false_eq_true, if_false, Option.some_bind, Option.some.injEq] at h
      subst h
      rcases king_assemble_mem (kingSteps s sq.1 sq.2 'k') false false
          { from_sq := sq, to_sq := (sq.1, sq.2 + 2), piece := 'k', castling := true }
          { from_sq := sq, to_sq := (sq.1, sq.2 - 2), piece := 'k', castling := true } m hm
        with h1 | ⟨hc, rfl⟩ | ⟨hc, rfl⟩
      · exact Or.inl h1
      · exact absurd hc (by decide)
      · exact absurd hc (by decide)

/-- Home (back) rank of a colour: row 7 for White, row 0 for Black. -/
def homeRank : Bool → Int
  | true => 7
  | false => 0

/-- King character of a colour. -/
def kingChar : Bool → Char
  | true => 'K'
  | false => 'k'

/-- Rook character of a colour. -/
def rookChar : Bool → Char
  | true => 'R'
  | false => 'r'

/-- Original file of the wing's rook: 7 kingside, 0 queenside. -/
def castleRookFile : Bool → Int
  | true => 7
  | false => 0

/-- File the castling king lands on: 6 kingside, 2 queenside. -/
def castleDestFile : Bool → Int
  | true => 6
  | false => 2

/-- File the castling king passes through: 5 kingside, 3 queenside. -/
def castleTransitFile : Bool → Int
  | true => 5
  | false => 3

/-- The castling-rights flag of a colour (`true` = White) and wing
(`true` = kingside). -/
def castleRight (s : BoardState) : Bool → Bool → Bool
  | true, true => s.castling_rights.wK
  | true, false => s.castling_rights.wQ
  | false, true => s.castling_rights.bK
  | false, false => s.castling_rights.bQ

/-- Every square strictly between the king and the wing's rook is empty
(f/g files kingside, b/c/d files queenside). -/
def castlePathEmpty (s : BoardState) : Bool → Bool → Prop
  | w, true => cell s.board (homeRank w) 5 = '.' ∧ cell s.board (homeRank w) 6 = '.'
  | w, false =>
      cell s.board (homeRank w) 1 = '.' ∧ cell s.board (homeRank w) 2 = '.' ∧
      cell s.board (homeRank w) 3 = '.'

theorem castleGenWK (n : Nat) (s : BoardState) (l : List Move) (chk a5 a6 : Bool)
    (s5 s6 : BoardState)
    (hK : cell s.board 7 4 = 'K') (hR : cell s.board 7 7 = 'R')
    (hl : movesForPieceF n s (7, 4) 'K' = some l)
    (hchk : isKingInCheckF n s true = some chk)
    (h5 : squareAttackedF n s (7, 5) false = some (a5, s5))
    (h6 : squareAttackedF n s (7, 6) false = some (a6, s6)) :
    ({ from_sq := (7, 4), to_sq := (7, 6), piece := 'K', castling := true } : Move) ∈ l ↔
      (s.castling_rights.wK = true ∧ (cell s.board 7 5 = '.' ∧ cell s.board 7 6 = '.') ∧
       chk = false ∧ a5 = false ∧ a6 = false) := by
  unfold movesForPieceF at hl
  unfold isKingInCheckF at hchk
  rw [movesForPieceC_king_white] at hl
  have hstep : ({ from_sq := (7, 4), to_sq := (7, 6), piece := 'K', castling := true } : Move) ∉
      kingSteps s (7, 4).1 (7, 4).2 'K' := by
    intro h
    exact absurd (kingSteps_castling_false s (7, 4).1 (7, 4).2 'K' _ h) (by decide)
  have hmem : ∀ (cks cqs : Bool) (l2 : List Move),
      ((kingSteps s (7, 4).1 (7, 4).2 'K' ++
        (if cks = true then
          [{ from_sq := ((7 : Int), (4 : Int)),
             to_sq := (((7 : Int), (4 : Int)).1, ((7 : Int), (4 : Int)).2 + 2), piece := 'K',
             castling := true }] else []) ++
        (if cqs = true then
          [{ from_sq := ((7 : Int), (4 : Int)),
             to_sq := (((7 : Int), (4 : Int)).1, ((7 : Int), (4 : Int)).2 - 2), piece := 'K',
             castling := true }] else [])) = l2) →
      (({ from_sq := (7, 4), to_sq := (7, 6), piece := 'K', castling := true } : Move) ∈ l2 ↔
        cks = true) := by
    intro cks cqs l2 hleq
    subst hleq
    constructor
    · intro h
      rcases List.mem_append.1 h with h1 | h2
      · rcases List.mem_append.1 h1 with h3 | h4
        · exact absurd h3 hstep
        · revert h4
          split
          · next hcond => intro h4; exact hcond
          · intro h4; cases h4
      · revert h2
        split
        · intro h2
          rw [List.mem_singleton] at h2
          exact absurd h2 (by decide)
        · intro h2; cases h2
    · intro h
      apply List.mem_append.2
      left
      apply List.mem_append.2
      right
      rw [if_pos h, List.mem_singleton]
      decide
  have hkc : canCastleKingsideC (squareAttackedF n) s true =
      some ((decide (cell s.board 7 5 = '.') && decide (cell s.board 7 6 = '.')) &&
        !chk && !a5 && !a6) := by
    rw [canCastleKingsideC_white]
    rw [if_neg (by simp [hK]), if_neg (by simp [hR])]
    by_cases hc5 : cell s.board 7 5 = '.'
    · by_cases hc6 : cell s.board 7 6 = '.'
      · rw [if_neg (by simp [hc5, hc6])]
        rw [hchk]
        simp only [Option.pure_def, Option.bind_eq_bind, Option.some_bind]
        cases chk with
        | true => simp
        | false =>
          simp only [Bool.not_false, if_true, if_false, Bool.true_and, hc5, hc6, decide_True,
            Bool.and_true, Bool.true_and]
          rw [h5]
          simp only [Option.map_some', Option.some_bind]
          cases a5 with
          | true => simp
          | false =>
            simp only [Bool.not_false, if_true, if_false, Bool.and_true, Bool.true_and]
            rw [h6]
            simp only [Option.map_some', Option.some_bind]
            cases a6 with
            | true => simp
            | false => simp
      · rw [if_pos (by simp [hc6])]
        simp [hc6]
    · rw [if_pos (by simp [hc5])]
      simp [hc5]
  cases hwK : s.castling_rights.wK with
  | false =>
    simp only [hwK, Bool.false_eq_true, if_false, Option.pure_def, Option.bind_eq_bind,
      Option.some_bind] at hl
    revert hl
    split
    · intro hl
      rcases hqv : canCastleQueensideC (squareAttackedF n) s true with _ | cqs <;>
        rw [hqv] at hl
      · exact Option.noConfusion hl
      · simp only [Option.some_bind, Option.some.injEq] at hl
        rw [hmem false cqs l hl]
        simp
    · intro hl
      simp only [Option.some.injEq] at hl
      rw [hmem false false l hl]
      simp
  | true =>
    simp only [hwK, if_true, Option.pure_def, Option.bind_eq_bind, Option.some_bind] at hl
    rw [hkc] at hl
    simp only [Option.some_bind] at hl
    have hiff : (((decide (cell s.board 7 5 = '.') && decide (cell s.board 7 6 = '.')) &&
        !chk && !a5 && !a6) = true) ↔
        ((cell s.board 7 5 = '.' ∧ cell s.board 7 6 = '.') ∧ chk = false ∧ a5 = false ∧
         a6 = false) := by
      simp only [Bool.and_eq_true, decide_eq_true_eq, Bool.not_eq_true']
      tauto
    revert hl
    split
    · intro hl
      rcases hqv : canCastleQueensideC (squareAttackedF n) s true with _ | cqs <;>
        rw [hqv] at hl
      · exact Option.noConfusion hl
      · simp only [Option.some_bind, Option.some.injEq] at hl
        rw [hmem _ cqs l hl, hiff]
        simp
    · intro hl
      simp only [Option.some.injEq] at hl
      rw [hmem _ false l hl, hiff]
      simp

theorem castleGenWQ (n : Nat) (s : BoardState) (l : List Move) (chk a3 a2 : Bool)
    (s3 s2 : BoardState)
    (hK : cell s.board 7 4 = 'K') (hR : cell s.board 7 0 = 'R')
    (hl : movesForPieceF n s (7, 4) 'K' = some l)
    (hchk : isKingInCheckF n s true = some chk)
    (h3 : squareAttackedF n s (7, 3) false = some (a3, s3))
    (h2 : squareAttackedF n s (7, 2) false = some (a2, s2)) :
    ({ from_sq := (7, 4), to_sq := (7, 2), piece := 'K', castling := true } : Move) ∈ l ↔
      (s.castling_rights.wQ = true ∧
       (cell s.board 7 1 = '.' ∧ cell s.board 7 2 = '.' ∧ cell s.board 7 3 = '.') ∧
       chk = false ∧ a3 = false ∧ a2 = false) := by
  unfold movesForPieceF at hl
  unfold isKingInCheckF at hchk
  rw [movesForPieceC_king_white] at hl
  have hstep : ({ from_sq := (7, 4), to_sq := (7, 2), piece := 'K', castling := true } : Move) ∉
      kingSteps s (7, 4).1 (7, 4).2 'K' := by
    intro h
    exact absurd (kingSteps_castling_false s (7, 4).1 (7, 4).2 'K' _ h) (by decide)
  have hmem : ∀ (cks cqs : Bool) (l2 : List Move),
      ((kingSteps s (7, 4).1 (7, 4).2 'K' ++
        (if cks = true then
          [{ from_sq := ((7 : Int), (4 : Int)),
             to_sq := (((7 : Int), (4 : Int)).1, ((7 : Int), (4 : Int)).2 + 2), piece := 'K',
             castling := true }] else []) ++
        (if cqs = true then
          [{ from_sq := ((7 : Int), (4 : Int)),
             to_sq := (((7 : Int), (4 : Int)).1, ((7 : Int), (4 : Int)).2 - 2), piece := 'K',
             castling := true }] else [])) = l2) →
      (({ from_sq := (7, 4), to_sq := (7, 2), piece := 'K', castling := true } : Move) ∈ l2 ↔
        cqs = true) := by
    intro cks cqs l2 hleq
    subst hleq
    constructor
    · intro h
      rcases List.mem_append.1 h with h1 | h2
      · rcases List.mem_append.1 h1 with h3 | h4
        · exact absurd h3 hstep
        · revert h4
          split
          · intro h4
            rw [List.mem_singleton] at h4
            exact absurd h4 (by decide)
          · intro h4; cases h4
      · revert h2
        split
        · next hcond => intro h2; exact hcond
        · intro h2; cases h2
    · intro h
      apply List.mem_append.2
      right
      rw [if_pos h, List.mem_singleton]
      decide
  have hqc : canCastleQueensideC (squareAttackedF n) s true =
      some ((decide (cell s.board 7 1 = '.') && decide (cell s.board 7 2 = '.') &&
        decide (cell s.board 7 3 = '.')) && !chk && !a3 && !a2) := by
    rw [canCastleQueensideC_white]
    rw [if_neg (by simp [hK]), if_neg (by simp [hR])]
    by_cases hc1 : cell s.board 7 1 = '.'
    · by_cases hc2 : cell s.board 7 2 = '.'
      · by_cases hc3 : cell s.board 7 3 = '.'
        · rw [if_neg (by simp [hc1, hc2, hc3])]
          rw [hchk]
          simp only [Option.pure_def, Option.bind_eq_bind, Option.some_bind]
          cases chk with
          | true => simp
          | false =>
            simp only [Bool.not_false, if_true, if_false, Bool.true_and, hc1, hc2, hc3,
              decide_True, Bool.and_true, Bool.true_and]
            rw [h3]
            simp only [Option.map_some', Option.some_bind]
            cases a3 with
            | true => simp
            | false =>
              simp only [Bool.not_false, if_true, if_false, Bool.and_true, Bool.true_and]
              rw [h2]
              simp only [Option.map_some', Option.some_bind]
              cases a2 with
              | true => simp
              | false => simp
        · rw [if_pos (by simp [hc3])]
          simp [hc3]
      · rw [if_pos (by simp [hc2])]
        simp [hc2]
    · rw [if_pos (by simp [hc1])]
      simp [hc1]
  cases hwQ : s.castling_rights.wQ with
  | false =>
    simp only [hwQ, Bool.false_eq_true, if_false, Option.pure_def, Option.bind_eq_bind,
      Option.some_bind] at hl
    revert hl
    split
    · intro hl
      rcases hkv : canCastleKingsideC (squareAttackedF n) s true with _ | cks <;>
        rw [hkv] at hl
      · exact Option.noConfusion hl
      · simp only [Option.some_bind, Option.some.injEq] at hl
        rw [hmem cks false l hl]
        simp
    · intro hl
      simp only [Option.some.injEq] at hl
      rw [hmem false false l hl]
      simp
  | true =>
    simp only [hwQ, if_true, Option.pure_def, Option.bind_eq_bind, Option.some_bind] at hl
    rw [hqc] at hl
    simp only [Option.some_bind] at hl
    have hiff : (((decide (cell s.board 7 1 = '.') && decide (cell s.board 7 2 = '.') &&
        decide (cell s.board 7 3 = '.')) && !chk && !a3 && !a2) = true) ↔
        ((cell s.board 7 1 = '.' ∧ cell s.board 7 2 = '.' ∧ cell s.board 7 3 = '.') ∧
         chk = false ∧ a3 = false ∧ a2 = false) := by
      simp only [Bool.and_eq_true, decide_eq_true_eq, Bool.not_eq_true']
      tauto
    revert hl
    split
    · intro hl
      rcases hkv : canCastleKingsideC (squareAttackedF n) s true with _ | cks <;>
        rw [hkv] at hl
      · exact Option.noConfusion hl
      · simp only [Option.some_bind, Option.some.injEq] at hl
        rw [hmem cks _ l hl, hiff]
        simp
    · intro hl
      simp only [Option.some.injEq] at hl
      rw [hmem false _ l hl, hiff]
      simp

theorem castleGenBK (n : Nat) (s : BoardState) (l : List Move) (chk a5 a6 : Bool)
    (s5 s6 : BoardState)
    (hK : cell s.board 0 4 = 'k') (hR : cell s.board 0 7 = 'r')
    (hl : movesForPieceF n s (0, 4) 'k' = some l)
    (hchk : isKingInCheckF n s false = some chk)
    (h5 : squareAttackedF n s (0, 5) true = some (a5, s5))
    (h6 : squareAttackedF n s (0, 6) true = some (a6, s6)) :
    ({ from_sq := (0, 4), to_sq := (0, 6), piece := 'k', castling := true } : Move) ∈ l ↔
      (s.castling_rights.bK = true ∧ (cell s.board 0 5 = '.' ∧ cell s.board 0 6 = '.') ∧
       chk = false ∧ a5 = false ∧ a6 = false) := by
  unfold movesForPieceF at hl
  unfold isKingInCheckF at hchk
  rw [movesForPieceC_king_black] at hl
  have hstep : ({ from_sq := (0, 4), to_sq := (0, 6), piece := 'k', castling := true } : Move) ∉
      kingSteps s (0, 4).1 (0, 4).2 'k' := by
    intro h
    exact absurd (kingSteps_castling_false s (0, 4).1 (0, 4).2 'k' _ h) (by decide)
  have hmem : ∀ (cks cqs : Bool) (l2 : List Move),
      ((kingSteps s (0, 4).1 (0, 4).2 'k' ++
        (if cks = true then
          [{ from_sq := ((0 : Int), (4 : Int)),
             to_sq := (((0 : Int), (4 : Int)).1, ((0 : Int), (4 : Int)).2 + 2), piece := 'k',
             castling := true }] else []) ++
        (if cqs = true then
          [{ from_sq := ((0 : Int), (4 : Int)),
             to_sq := (((0 : Int), (4 : Int)).1, ((0 : Int), (4 : Int)).2 - 2), piece := 'k',
             castling := true }] else [])) = l2) →
      (({ from_sq := (0, 4), to_sq := (0, 6), piece := 'k', castling := true } : Move) ∈ l2 ↔
        cks = true) := by
    intro cks cqs l2 hleq
    subst hleq
    constructor
    · intro h
      rcases List.mem_append.1 h with h1 | h2
      · rcases List.mem_append.1 h1 with h3 | h4
        · exact absurd h3 hstep
        · revert h4
          split
          · next hcond => intro h4; exact hcond
          · intro h4; cases h4
      · revert h2
        split
        · intro h2
          rw [List.mem_singleton] at h2
          exact absurd h2 (by decide)
        · intro h2; cases h2
    · intro h
      apply List.mem_append.2
      left
      apply List.mem_append.2
      right
      rw [if_pos h, List.mem_singleton]
      decide
  have hkc : canCastleKingsideC (squareAttackedF n) s false =
      some ((decide (cell s.board 0 5 = '.') && decide (cell s.board 0 6 = '.')) &&
        !chk && !a5 && !a6) := by
    rw [canCastleKingsideC_black]
    rw [if_neg (by simp [hK]), if_neg (by simp [hR])]
    by_cases hc5 : cell s.board 0 5 = '.'
    · by_cases hc6 : cell s.board 0 6 = '.'
      · rw [if_neg (by simp [hc5, hc6])]
        rw [hchk]
        simp only [Option.pure_def, Option.bind_eq_bind, Option.some_bind]
        cases chk with
        | true => simp
        | false =>
          simp only [Bool.not_false, if_true, if_false, Bool.true_and, hc5, hc6, decide_True,
            Bool.and_true, Bool.true_and]
          rw [h5]
          simp only [Option.map_some', Option.some_bind]
          cases a5 with
          | true => simp
          | false =>
            simp only [Bool.not_false, if_true, if_false, Bool.and_true, Bool.true_and]
            rw [h6]
            simp only [Option.map_some', Option.some_bind]
            cases a6 with
            | true => simp
            | false => simp
      · rw [if_pos (by simp [hc6])]
        simp [hc6]
    · rw [if_pos (by simp [hc5])]
      simp [hc5]
  cases hwK : s.castling_rights.bK with
  | false =>
    simp only [hwK, Bool.false_eq_true, if_false, Option.pure_def, Option.bind_eq_bind,
      Option.some_bind] at hl
    revert hl
    split
    · intro hl
      rcases hqv : canCastleQueensideC (squareAttackedF n) s false with _ | cqs <;>
        rw [hqv] at hl
      · exact Option.noConfusion hl
      · simp only [Option.some_bind, Option.some.injEq] at hl
        rw [hmem false cqs l hl]
        simp
    · intro hl
      simp only [Option.some.injEq] at hl
      rw [hmem false false l hl]
      simp
  | true =>
    simp only [hwK, if_true, Option.pure_def, Option.bind_eq_bind, Option.some_bind] at hl
    rw [hkc] at hl
    simp only [Option.some_bind] at hl
    have hiff : (((decide (cell s.board 0 5 = '.') && decide (cell s.board 0 6 = '.')) &&
        !chk && !a5 && !a6) = true) ↔
        ((cell s.board 0 5 = '.' ∧ cell s.board 0 6 = '.') ∧ chk = false ∧ a5 = false ∧
         a6 = false) := by
      simp only [Bool.and_eq_true, decide_eq_true_eq, Bool.not_eq_true']
      tauto
    revert hl
    split
    · intro hl
      rcases hqv : canCastleQueensideC (squareAttackedF n) s false with _ | cqs <;>
        rw [hqv] at hl
      · exact Option.noConfusion hl
      · simp only [Option.some_bind, Option.some.injEq] at hl
        rw [hmem _ cqs l hl, hiff]
        simp
    · intro hl
      simp only [Option.some.injEq] at hl
      rw [hmem _ false l hl, hiff]
      simp

theorem castleGenBQ (n : Nat) (s : BoardState) (l : List Move) (chk a3 a2 : Bool)
    (s3 s2 : BoardState)
    (hK : cell s.board 0 4 = 'k') (hR : cell s.board 0 0 = 'r')
    (hl : movesForPieceF n s (0, 4) 'k' = some l)
    (hchk : isKingInCheckF n s false = some chk)
    (h3 : squareAttackedF n s (0, 3) true = some (a3, s3))
    (h2 : squareAttackedF n s (0, 2) true = some (a2, s2)) :
    ({ from_sq := (0, 4), to_sq := (0, 2), piece := 'k', castling := true } : Move) ∈ l ↔
      (s.castling_rights.bQ = true ∧
       (cell s.board 0 1 = '.' ∧ cell s.board 0 2 = '.' ∧ cell s.board 0 3 = '.') ∧
       chk = false ∧ a3 = false ∧ a2 = false) := by
  unfold movesForPieceF at hl
  unfold isKingInCheckF at hchk
  rw [movesForPieceC_king_black] at hl
  have hstep : ({ from_sq := (0, 4), to_sq := (0, 2), piece := 'k', castling := true } : Move) ∉
      kingSteps s (0, 4).1 (0, 4).2 'k' := by
    intro h
    exact absurd (kingSteps_castling_false s (0, 4).1 (0, 4).2 'k' _ h) (by decide)
  have hmem : ∀ (cks cqs : Bool) (l2 : List Move),
      ((kingSteps s (0, 4).1 (0, 4).2 'k' ++
        (if cks = true then
          [{ from_sq := ((0 : Int), (4 : Int)),
             to_sq := (((0 : Int), (4 : Int)).1, ((0 : Int), (4 : Int)).2 + 2), piece := 'k',
             castling := true }] else []) ++
        (if cqs = true then
          [{ from_sq := ((0 : Int), (4 : Int)),
             to_sq := (((0 : Int), (4 : Int)).1, ((0 : Int), (4 : Int)).2 - 2), piece := 'k',
             castling := true }] else [])) = l2) →
      (({ from_sq := (0, 4), to_sq := (0, 2), piece := 'k', castling := true } : Move) ∈ l2 ↔
        cqs = true) := by
    intro cks cqs l2 hleq
    subst hleq
    constructor
    · intro h
      rcases List.mem_append.1 h with h1 | h2
      · rcases List.mem_append.1 h1 with h3 | h4
        · exact absurd h3 hstep
        · revert h4
          split
          · intro h4
            rw [List.mem_singleton] at h4
            exact absurd h4 (by decide)
          · intro h4; cases h4
      · revert h2
        split
        · next hcond => intro h2; exact hcond
        · intro h2; cases h2
    · intro h
      apply List.mem_append.2
      right
      rw [if_pos h, List.mem_singleton]
      decide
  have hqc : canCastleQueensideC (squareAttackedF n) s false =
      some ((decide (cell s.board 0 1 = '.') && decide (cell s.board 0 2 = '.') &&
        decide (cell s.board 0 3 = '.')) && !chk && !a3 && !a2) := by
    rw [canCastleQueensideC_black]
    rw [if_neg (by simp [hK]), if_neg (by simp [hR])]
    by_cases hc1 : cell s.board 0 1 = '.'
    · by_cases hc2 : cell s.board 0 2 = '.'
      · by_cases hc3 : cell s.board 0 3 = '.'
        · rw [if_neg (by simp [hc1, hc2, hc3])]
          rw [hchk]
          simp only [Option.pure_def, Option.bind_eq_bind, Option.some_bind]
          cases chk with
          | true => simp
          | false =>
            simp only [Bool.not_false, if_true, if_false, Bool.true_and, hc1, hc2, hc3,
              decide_True, Bool.and_true, Bool.true_and]
            rw [h3]
            simp only [Option.map_some', Option.some_bind]
            cases a3 with
            | true => simp
            | false =>
              simp only [Bool.not_false, if_true, if_false, Bool.and_true, Bool.true_and]
              rw [h2]
              simp only [Option.map_some', Option.some_bind]
              cases a2 with
              | true => simp
              | false => simp
        · rw [if_pos (by simp [hc3])]
          simp [hc3]
      · rw [if_pos (by simp [hc2])]
        simp [hc2]
    · rw [if_pos (by simp [hc1])]
      simp [hc1]
  cases hwQ : s.castling_rights.bQ with
  | false =>
    simp only [hwQ, Bool.false_eq_true, if_false, Option.pure_def, Option.bind_eq_bind,
      Option.some_bind] at hl
    revert hl
    split
    · intro hl
      rcases hkv : canCastleKingsideC (squareAttackedF n) s false with _ | cks <;>
        rw [hkv] at hl
      · exact Option.noConfusion hl
      · simp only [Option.some_bind, Option.some.injEq] at hl
        rw [hmem cks false l hl]
        simp
    · intro hl
      simp only [Option.some.injEq] at hl
      rw [hmem false false l hl]
      simp
  | true =>
    simp only [hwQ, if_true, Option.pure_def, Option.bind_eq_bind, Option.some_bind] at hl
    rw [hqc] at hl
    simp only [Option.some_bind] at hl
    have hiff : (((decide (cell s.board 0 1 = '.') && decide (cell s.board 0 2 = '.') &&
        decide (cell s.board 0 3 = '.')) && !chk && !a3 && !a2) = true) ↔
        ((cell s.board 0 1 = '.' ∧ cell s.board 0 2 = '.' ∧ cell s.board 0 3 = '.') ∧
         chk = false ∧ a3 = false ∧ a2 = false) := by
      simp only [Bool.and_eq_true, decide_eq_true_eq, Bool.not_eq_true']
      tauto
    revert hl
    split
    · intro hl
      rcases hkv : canCastleKingsideC (squareAttackedF n) s false with _ | cks <;>
        rw [hkv] at hl
      · exact Option.noConfusion hl
      · simp only [Option.some_bind, Option.some.injEq] at hl
        rw [hmem cks _ l hl, hiff]
        simp
    · intro hl
      simp only [Option.some.injEq] at hl
      rw [hmem false _ l hl, hiff]
      simp

/-- C6 (all four cases): for each colour and each wing, with the king and
that wing's rook on their original squares, the castling move is generated
if and only if, at generation time, the corresponding castling right is
held, every square between the king and the rook is empty, the king is not
currently in check, and neither the king's transit square nor its
destination square is attacked by the opponent. -/
theorem claim6_castling_generation_iff (white kingside : Bool) (n : Nat) (s : BoardState)
    (l : List Move) (chk a1 a2 : Bool) (s1 s2 : BoardState)
    (hK : cell s.board (homeRank white) 4 = kingChar white)
    (hR : cell s.board (homeRank white) (castleRookFile kingside) = rookChar white)
    (hl : movesForPieceF n s (homeRank white, 4) (kingChar white) = some l)
    (hchk : isKingInCheckF n s white = some chk)
    (h1 : squareAttackedF n s (homeRank white, castleTransitFile kingside) (!white) =
      some (a1, s1))
    (h2 : squareAttackedF n s (homeRank white, castleDestFile kingside) (!white) =
      some (a2, s2)) :
    ({ from_sq := (homeRank white, 4), to_sq := (homeRank white, castleDestFile kingside),
       piece := kingChar white, castling := true } : Move) ∈ l ↔
      (castleRight s white kingside = true ∧ castlePathEmpty s white kingside ∧
       chk = false ∧ a1 = false ∧ a2 = false) := by
  cases white <;> cases kingside
  · exact castleGenBQ n s l chk a1 a2 s1 s2 hK hR hl hchk h1 h2
  · exact castleGenBK n s l chk a1 a2 s1 s2 hK hR hl hchk h1 h2
  · exact castleGenWQ n s l chk a1 a2 s1 s2 hK hR hl hchk h1 h2
  · exact castleGenWK n s l chk a1 a2 s1 s2 hK hR hl hchk h1 h2

set_option maxHeartbeats 2000000 in
theorem claim6_witness :
    (({ from_sq := (homeRank true, 4), to_sq := (homeRank true, castleDestFile true),
        piece := kingChar true, castling := true } : Move) ∈ c6KingMoves ↔
      (castleRight c6Position true true = true ∧ castlePathEmpty c6Position true true ∧
       false = false ∧ false = false ∧ false = false)) :=
  claim6_castling_generation_iff true true 6 c6Position c6KingMoves false false false
    c6Position c6Position (by decide) (by decide) (by decide) (by decide) (by decide) (by decide)

theorem movesForPieceC_sound (att : AttackOracle) (s : BoardState) (hwfs : WfState s)
    (sq : Int × Int) (hsq : sq ∈ allSquares) (p : Char)
    (hp : cell s.board sq.1 sq.2 = p) (hdot : p ≠ '.') (l : List Move)
    (h : movesForPieceC att s sq p = some l) :
    ∀ m ∈ l, GenOK s m := by
  obtain ⟨hwb, hvalid, hKuniq, hkuniq, hepwf⟩ := hwfs
  have hf : inB sq.1 sq.2 = true := (mem_allSquares sq).1 hsq
  have hpv : p ∈ validPieceChars := hp ▸ hvalid sq hsq
  intro m hm
  fin_cases hpv
  · exact absurd rfl hdot
  · have h2 : some (pawnMoves s sq.1 sq.2 'P') = some l := h
    injection h2 with he
    subst he
    exact pawnMoves_sound s sq.1 sq.2 'P' hf hp (Or.inl rfl) hepwf m hm
  · have h2 : some (knightMoves s sq.1 sq.2 'N') = some l := h
    injection h2 with he
    subst he
    exact knightMoves_sound s sq.1 sq.2 'N' hf m hm
  · have h2 : some (sliderMoves s sq.1 sq.2 'B') = some l := h
    injection h2 with he
    subst he
    exact sliderMoves_sound s sq.1 sq.2 'B' hf m hm
  · have h2 : some (sliderMoves s sq.1 sq.2 'R') = some l := h
    injection h2 with he
    subst he
    exact sliderMoves_sound s sq.1 sq.2 'R' hf m hm
  · have h2 : some (sliderMoves s sq.1 sq.2 'Q') = some l := h
    injection h2 with he
    subst he
    exact sliderMoves_sound s sq.1 sq.2 'Q' hf m hm
  · rcases movesForPieceC_king_mem_white att s sq l m h hm with hstep | ⟨hck, rfl⟩ | ⟨hcq, rfl⟩
    · exact kingSteps_sound s sq.1 sq.2 'K' hf m hstep
    · obtain ⟨hk74, hr77, h75, h76⟩ := canCastleKingsideC_white_struct att s hck
      have hsq74 : sq = ((7 : Int), (4 : Int)) :=
        hKuniq sq hsq ((7 : Int), (4 : Int)) (by decide) hp hk74
      subst hsq74
      refine ⟨by decide, by decide, by decide, ?_, ?_, ?_⟩
      · intro q hq; cases hq
      · intro hq; cases hq
      · intro _
        exact ⟨rfl, rfl, rfl, rfl, Or.inl ⟨by decide, h75⟩⟩
    · obtain ⟨hk74, hr70, h71, h72, h73⟩ := canCastleQueensideC_white_struct att s hcq
      have hsq74 : sq = ((7 : Int), (4 : Int)) :=
        hKuniq sq hsq ((7 : Int), (4 : Int)) (by decide) hp hk74
      subst hsq74
      refine ⟨by decide, by decide, by decide, ?_, ?_, ?_⟩
      · intro q hq; cases hq
      · intro hq; cases hq
      · intro _
        exact ⟨rfl, rfl, rfl, rfl, Or.inr ⟨by decide, h73⟩⟩
  · have h2 : some (pawnMoves s sq.1 sq.2 'p') = some l := h
    injection h2 with he
    subst he
    exact pawnMoves_sound s sq.1 sq.2 'p' hf hp (Or.inr rfl) hepwf m hm
  · have h2 : some (knightMoves s sq.1 sq.2 'n') = some l := h
    injection h2 with he
    subst he
    exact knightMoves_sound s sq.1 sq.2 'n' hf m hm
  · have h2 : some (sliderMoves s sq.1 sq.2 'b') = some l := h
    injection h2 with he
    subst he
    exact sliderMoves_sound s sq.1 sq.2 'b' hf m hm
  · have h2 : some (sliderMoves s sq.1 sq.2 'r') = some l := h
    injection h2 with he
    subst he
    exact sliderMoves_sound s sq.1 sq.2 'r' hf m hm
  · have h2 : some (sliderMoves s sq.1 sq.2 'q') = some l := h
    injection h2 with he
    subst he
    exact sliderMoves_sound s sq.1 sq.2 'q' hf m hm
  · rcases movesForPieceC_king_mem_black att s sq l m h hm with hstep | ⟨hck, rfl⟩ | ⟨hcq, rfl⟩
    · exact kingSteps_sound s sq.1 sq.2 'k' hf m hstep
    · obtain ⟨hk04, hr07, h05, h06⟩ := canCastleKingsideC_black_struct att s hck
      have hsq04 : sq = ((0 : Int), (4 : Int)) :=
        hkuniq sq hsq ((0 : Int), (4 : Int)) (by decide) hp hk04
      subst hsq04
      refine ⟨by decide, by decide, by decide, ?_, ?_, ?_⟩
      · intro q hq; cases hq
      · intro hq; cases hq
      · intro _
        exact ⟨rfl, rfl, rfl, rfl, Or.inl ⟨by decide, h05⟩⟩
    · obtain ⟨hk04, hr00, h01, h02, h03⟩ := canCastleQueensideC_black_struct att s hcq
      have hsq04 : sq = ((0 : Int), (4 : Int)) :=
        hkuniq sq hsq ((0 : Int), (4 : Int)) (by decide) hp hk04
      subst hsq04
      refine ⟨by decide, by decide, by decide, ?_, ?_, ?_⟩
      · intro q hq; cases hq
      · intro hq; cases hq
      · intro _
        exact ⟨rfl, rfl, rfl, rfl, Or.inr ⟨by decide, h03⟩⟩

/-- Every move returned by the pseudo-legal generator at a well-formed state
has the structural properties `GenOK`. -/
theorem genPseudoF_sound (n : Nat) (s : BoardState) (hwfs : WfState s) (ms : List Move)
    (h : genPseudoF n s = some ms) : ∀ m ∈ ms, GenOK s m := by
  intro m hm
  obtain ⟨sq, hsq, l2, hdot, hside, hmf, hml⟩ :=
    genPseudoC_mem (squareAttackedF n) s ms h m hm
  exact movesForPieceC_sound (squareAttackedF n) s hwfs sq hsq
    (cell s.board sq.1 sq.2) rfl hdot l2 hmf m hml

/-- C1 (amended): at every well-formed state (8x8 board of valid piece
characters, at most one king per colour, en-passant target in bounds and
empty when set), for every move returned by the pseudo-legal generator,
`pop_move` after `push_move` restores the `BoardState` to the prior value
in every field. -/
theorem claim1_push_pop_identity (n : Nat) (s : BoardState) (ms : List Move) (m : Move)
    (hwf : WfState s) (hgen : genPseudoF n s = some ms) (hm : m ∈ ms) :
    popMove (pushMove s m) = s :=
  pushPop_id s m hwf.1 (genPseudoF_sound n s hwf ms hgen m hm)

/-- A state violating the reachable-position invariants: its en-passant
target d6 = (2,3) is occupied by a black knight. -/
def sBad : BoardState :=
  { board :=
      [['.', '.', '.', '.', 'k', '.', '.', '.'],
       ['.', '.', '.', '.', '.', '.', '.', '.'],
       ['.', '.', '.', 'n', '.', '.', '.', '.'],
       ['.', '.', '.', 'p', 'P', '.', '.', '.'],
       ['.', '.', '.', '.', '.', '.', '.', '.'],
       ['.', '.', '.', '.', '.', '.', '.', '.'],
       ['.', '.', '.', '.', '.', '.', '.', '.'],
       ['.', '.', '.', '.', 'K', '.', '.', '.']]
    white_to_move := true
    castling_rights := { wK := false, wQ := false, bK := false, bQ := false }
    en_passant_target := some (2, 3)
    halfmove_clock := 0
    fullmove_number := 1
    move_stack := [] }

/-- The en-passant capture the generator offers at `sBad`. -/
def mEP : Move :=
  { from_sq := (3, 4), to_sq := (2, 3), piece := 'P', capture := some 'p', en_passant := true }

set_option maxHeartbeats 2000000 in
/-- The original C1 is false for arbitrary states: at `sBad` the en-passant
target square d6 is occupied by a knight, the generator still offers the
en-passant capture `mEP`, and pushing then popping it loses that knight, so
the round trip is not the identity; `sBad` violates the well-formedness
invariant `WfState`. -/
theorem claim1_counterexample :
    (genPseudoF 3 sBad).map (fun l => decide (mEP ∈ l)) = some true ∧
    popMove (pushMove sBad mEP) ≠ sBad ∧
    ¬ WfState sBad := by
  exact ⟨by decide, by decide, by decide⟩

/-- The 20 pseudo-legal moves generated at the starting position. -/
def startPseudoMoves : List Move :=
  [{ from_sq := (6, 0), to_sq := (5, 0), piece := 'P' },
   { from_sq := (6, 0), to_sq := (4, 0), piece := 'P' },
   { from_sq := (6, 1), to_sq := (5, 1), piece := 'P' },
   { from_sq := (6, 1), to_sq := (4, 1), piece := 'P' },
   { from_sq := (6, 2), to_sq := (5, 2), piece := 'P' },
   { from_sq := (6, 2), to_sq := (4, 2), piece := 'P' },
   { from_sq := (6, 3), to_sq := (5, 3), piece := 'P' },
   { from_sq := (6, 3), to_sq := (4, 3), piece := 'P' },
   { from_sq := (6, 4), to_sq := (5, 4), piece := 'P' },
   { from_sq := (6, 4), to_sq := (4, 4), piece := 'P' },
   { from_sq := (6, 5), to_sq := (5, 5), piece := 'P' },
   { from_sq := (6, 5), to_sq := (4, 5), piece := 'P' },
   { from_sq := (6, 6), to_sq := (5, 6), piece := 'P' },
   { from_sq := (6, 6), to_sq := (4, 6), piece := 'P' },
   { from_sq := (6, 7), to_sq := (5, 7), piece := 'P' },
   { from_sq := (6, 7), to_sq := (4, 7), piece := 'P' },
   { from_sq := (7, 1), to_sq := (5, 2), piece := 'N' },
   { from_sq := (7, 1), to_sq := (5, 0), piece := 'N' },
   { from_sq := (7, 6), to_sq := (5, 7), piece := 'N' },
   { from_sq := (7, 6), to_sq := (5, 5), piece := 'N' }]

set_option maxHeartbeats 4000000 in
/-- Witness: at the standard starting position (well-formed), pushing then
popping the generated double step e2e4 restores the state exactly. -/
theorem claim1_witness :
    popMove (pushMove startState mPe2e4) = startState :=
  claim1_push_pop_identity 1 startState startPseudoMoves mPe2e4 (by decide) (by decide) (by decide)

end Catur